import Mathlib

/-!
Shallow embedding of the concurrency-safe persistence and audit core of
scripts/team_manager.py: the access-control gate, the team/role state
machine, the rate limiter, the backup manager with retention, and the
audit ledger with its query, together with theorems settling the frozen
claims about them.  Every definition is translated from the Python
source; effects (document saves, audit appends, file deletion) are
reified as an explicit event trace, and fallible filesystem actions are
passed in as explicit outcomes.
-/

namespace TM

/-- User session context with RBAC information (class UserContext). -/
structure UserContext where
  user_id : String
  role : String
  team_id : Option Nat := none
deriving DecidableEq

/-- UserContext.ROLE_LEVELS with the dict lookup defaulting to 0. -/
def ROLE_LEVELS (role : String) : Nat :=
  if role = "viewer" then 1
  else if role = "team-lead" then 2
  else if role = "admin" then 3
  else 0

/-- UserContext.has_permission: level of the user at least that required. -/
def UserContext.has_permission (u : UserContext) (required_role : String) : Bool :=
  decide (ROLE_LEVELS required_role ≤ ROLE_LEVELS u.role)

/-- UserContext.can_modify_team: admin, or team-lead assigned to that team. -/
def UserContext.can_modify_team (u : UserContext) (team_id : Nat) : Bool :=
  if u.role = "admin" then true
  else if u.role = "team-lead" ∧ u.team_id = some team_id then true
  else false

/-- TeamManager._require_auth: PermissionDenied is the .error case.  No user
context at all is denied; below team-lead is denied; a target team requires
can_modify_team. -/
def require_auth (uc : Option UserContext) (operation : String) (team_id : Option Nat) :
    Except String Unit :=
  match uc with
  | none => .error ("Authentication required for " ++ operation)
  | some u =>
    if ¬ u.has_permission "team-lead" then
      .error ("User " ++ u.user_id ++ " with role " ++ u.role ++
        " does not have permission to " ++ operation)
    else
      match team_id with
      | some tid =>
        if ¬ u.can_modify_team tid then
          .error ("User " ++ u.user_id ++ " cannot modify team " ++ toString tid)
        else .ok ()
      | none => .ok ()

/-- A character in the class [\x00-\x1f\x7f] used by the validators. -/
def isControlChar (c : Char) : Bool := c.toNat ≤ 31 || c.toNat == 127

/-- The module-level VALID_ROLES set (48 role names). -/
def VALID_ROLES : List String := [
  "Business Relationship Manager", "Lead Product Manager",
  "Business Systems Analyst", "Financial Controller (FinOps)",
  "Chief Architect", "Domain Architect", "Solution Architect", "Standards Lead",
  "Compliance Officer", "Internal Auditor", "Privacy Engineer", "Policy Manager",
  "Cloud Architect", "IaC Engineer", "Network Security Engineer", "Storage Engineer",
  "Platform Product Manager", "CI/CD Architect", "Kubernetes Administrator",
  "Developer Advocate",
  "Data Architect", "DBA", "Data Privacy Officer", "ETL Developer",
  "Technical Lead", "Senior Backend Engineer", "Senior Frontend Engineer",
  "Accessibility (A11y) Expert", "Technical Writer",
  "API Product Manager", "Integration Engineer", "Messaging Engineer", "IAM Specialist",
  "Security Architect", "Vulnerability Researcher", "Penetration Tester",
  "DevSecOps Engineer",
  "QA Architect", "SDET", "Performance/Load Engineer", "Manual QA / UAT Coordinator",
  "SRE Lead", "Observability Engineer", "Chaos Engineer", "Incident Manager",
  "NOC Analyst", "Change Manager", "Release Manager", "L3 Support Engineer"]

/-- validate_role_name: raising ValueError is the .error case. -/
def validate_role_name (role_name : String) : Except String Unit :=
  if role_name.isEmpty then .error "role_name is required"
  else if role_name.length > 128 then .error "role_name must be 128 characters or less"
  else if role_name.toList.any isControlChar then
    .error "role_name contains invalid control characters"
  else if ¬ VALID_ROLES.contains role_name then .error "Invalid role_name"
  else .ok ()

/-- A character of the username character class [a-zA-Z0-9_.-]. -/
def usernameChar (c : Char) : Bool :=
  c.isAlpha || c.isDigit || c == '_' || c == '.' || c == '-'

/-- The default username pattern of validate_person_name, one or more
characters of the class, matched against the whole string. -/
def matchesUsername (s : String) : Bool :=
  !s.isEmpty && s.toList.all usernameChar

/-- A character of the email local-part class [a-zA-Z0-9._%+-]. -/
def emailLocalChar (c : Char) : Bool :=
  c.isAlpha || c.isDigit || c == '.' || c == '_' || c == '%' || c == '+' || c == '-'

/-- A character of a dot-separated domain label, [a-zA-Z0-9-]. -/
def emailLabelChar (c : Char) : Bool := c.isAlpha || c.isDigit || c == '-'

/-- str.split on a single separator character (an empty input gives one
empty field, as in Python). -/
def splitOnChar (sep : Char) : List Char → List (List Char)
  | [] => [[]]
  | c :: cs =>
    let rest := splitOnChar sep cs
    if c == sep then [] :: rest
    else
      match rest with
      | [] => [[c]]
      | r :: rs => (c :: r) :: rs

/-- The default email pattern of validate_person_name: local part, one at
sign, a domain, a final dot and an alphabetic top-level label of length at
least two.  The pattern is a pure character-class regex, so language
membership by decomposition at the separators (the at sign is in neither
class, the last dot bounds the top-level label) is its exact semantics. -/
def matchesEmail (s : String) : Bool :=
  match splitOnChar '@' s.toList with
  | [localPart, domain] =>
    (!localPart.isEmpty && localPart.all emailLocalChar) &&
    (let labels := splitOnChar '.' domain
     decide (2 ≤ labels.length) &&
    (labels.dropLast.all fun l => l.all emailLabelChar) &&
    !(labels.dropLast == ([[]] : List (List Char))) &&
    (match labels.getLast? with
      | some tld => decide (2 ≤ tld.length) && tld.all (·.isAlpha)
      | none => false))
  | _ => false

/-- validate_person_name with the default rules (max 256 characters, no
control characters, email or username format); ValueError is .error. -/
def validate_person_name (person : String) : Except String Unit :=
  if person.isEmpty then .error "person is required"
  else if person.length > 256 then .error "person must be 256 characters or less"
  else if person.toList.any isControlChar then
    .error "person contains invalid control characters"
  else if ¬ (matchesEmail person || matchesUsername person) then
    .error "Invalid person format"
  else .ok ()

/-- dataclass Role. -/
structure Role where
  name : String
  responsibility : String
  deliverables : List String
  assigned_to : Option String := none
deriving DecidableEq

/-- dataclass Team. -/
structure Team where
  id : Nat
  name : String
  phase : String
  description : String
  roles : List Role
  exit_criteria : List String
  status : String := "not_started"
  started_at : Option String := none
  completed_at : Option String := none
deriving DecidableEq

/-- One observable filesystem effect of a mutating command, in program
order: the atomic document write of TeamManager.save, one audit-ledger
append (AuditLogger.log_action, tagged by action name), or the deletion
of the document file (delete_project). -/
inductive Event where
  | save : Event
  | audit : String → Event
  | unlinkConfig : Event
deriving DecidableEq

/-- The TeamManager fields the embedded operations read: the user context,
the audit toggle, and the duplicate-detection configuration that
check_duplicate_assignment reads from the rules loader. -/
structure MgrCtx where
  user_context : Option UserContext := none
  enable_audit : Bool := true
  dup_enabled : Bool := true
  dup_scope : String := "project"
  dup_action : String := "warn"

/-- Lookup in the self.teams dict (keyed by team id). -/
def findTeam (teams : List Team) (team_id : Nat) : Option Team :=
  teams.find? (fun t => t.id == team_id)

/-- Membership test, team_id in self.teams. -/
def hasTeam (teams : List Team) (team_id : Nat) : Bool :=
  teams.any (fun t => t.id == team_id)

/-- In-place mutation of the team stored under team_id. -/
def updateTeam (teams : List Team) (team_id : Nat) (t' : Team) : List Team :=
  teams.map (fun t => if t.id == team_id then t' else t)

/-- del self.teams[team_id]. -/
def removeTeam (teams : List Team) (team_id : Nat) : List Team :=
  teams.filter (fun t => !(t.id == team_id))

/-- The audit append that a mutating command performs when
self.enable_audit and self.audit_logger are set. -/
def auditEvents (ctx : MgrCtx) (action : String) : List Event :=
  if ctx.enable_audit then [.audit action] else []

/-- TeamManager.STANDARD_TEAMS: the fixed twelve-team template, as the
list of its values in key order (the Python dict is keyed by team id). -/
def STANDARD_TEAMS : List Team := [
  { id := 1, name := "Business & Product Strategy",
    phase := "Phase 1: Strategy, Governance & Planning",
    description := "The 'Why' - Business case and product strategy",
    roles := [
    ⟨"Business Relationship Manager", "Connects IT to C-suite", ["Strategic alignment docs", "Executive briefings"], none⟩,
    ⟨"Lead Product Manager", "Owns long-term roadmap", ["Product roadmap", "OKRs", "Feature prioritization"], none⟩,
    ⟨"Business Systems Analyst", "Translates business to technical", ["Requirements specs", "User stories", "Acceptance criteria"], none⟩,
    ⟨"Financial Controller (FinOps)", "Approves budget and cloud spend", ["Budget forecasts", "Cost projections", "Spend reports"], none⟩],
    exit_criteria := ["Business case approved", "Budget allocated", "Roadmap defined", "Success metrics established"],
    status := "not_started", started_at := none, completed_at := none },
  { id := 2, name := "Enterprise Architecture",
    phase := "Phase 1: Strategy, Governance & Planning",
    description := "The 'Standards' - Technology vision and standards",
    roles := [
    ⟨"Chief Architect", "Sets 5-year tech vision", ["Architecture vision", "Tech radar", "Strategic plans"], none⟩,
    ⟨"Domain Architect", "Specialized stack expertise", ["Domain-specific patterns", "Best practices guides"], none⟩,
    ⟨"Solution Architect", "Maps projects to standards", ["Solution designs", "Architecture decision records"], none⟩,
    ⟨"Standards Lead", "Manages Approved Tech List", ["Technology standards", "Evaluation criteria", "Approved list"], none⟩],
    exit_criteria := ["Architecture approved", "Technology choices validated", "Standards compliance verified"],
    status := "not_started", started_at := none, completed_at := none },
  { id := 3, name := "GRC (Governance, Risk, & Compliance)",
    phase := "Phase 1: Strategy, Governance & Planning",
    description := "Compliance and risk management",
    roles := [
    ⟨"Compliance Officer", "SOX/HIPAA/GDPR adherence", ["Compliance checklists", "Audit reports"], none⟩,
    ⟨"Internal Auditor", "Pre-production mock audits", ["Audit findings", "Remediation plans"], none⟩,
    ⟨"Privacy Engineer", "Data masking and PII", ["Privacy impact assessments", "Data flow diagrams"], none⟩,
    ⟨"Policy Manager", "Maintains SOPs", ["Standard operating procedures", "Policy updates"], none⟩],
    exit_criteria := ["Compliance review passed", "Risk assessment complete", "Privacy requirements met", "Policies acknowledged"],
    status := "not_started", started_at := none, completed_at := none },
  { id := 4, name := "Infrastructure & Cloud Ops",
    phase := "Phase 2: Platform & Foundation",
    description := "Cloud infrastructure and networking",
    roles := [
    ⟨"Cloud Architect", "VPC and network design", ["Network diagrams", "Security groups", "Routing tables"], none⟩,
    ⟨"IaC Engineer", "Provisions the 'metal'", ["Terraform modules", "Ansible playbooks", "Infrastructure code"], none⟩,
    ⟨"Network Security Engineer", "Firewalls, VPNs, Direct Connect", ["Security rules", "Network policies", "Access controls"], none⟩,
    ⟨"Storage Engineer", "S3/SAN management", ["Storage policies", "Backup strategies", "Archival rules"], none⟩],
    exit_criteria := ["Infrastructure provisioned", "Network connectivity verified", "Security rules applied", "Monitoring enabled"],
    status := "not_started", started_at := none, completed_at := none },
  { id := 5, name := "Platform Engineering",
    phase := "Phase 2: Platform & Foundation",
    description := "The 'Internal Tools' - Developer experience platform",
    roles := [
    ⟨"Platform Product Manager", "Developer experience as product", ["Platform roadmap", "DX metrics", "Adoption reports"], none⟩,
    ⟨"CI/CD Architect", "Golden pipelines", ["Pipeline templates", "Build configs", "Deployment strategies"], none⟩,
    ⟨"Kubernetes Administrator", "Cluster management", ["Cluster configs", "Resource quotas", "Ingress rules"], none⟩,
    ⟨"Developer Advocate", "Dev squad adoption", ["Onboarding guides", "Training materials", "Feedback loops"], none⟩],
    exit_criteria := ["Platform services ready", "CI/CD pipelines functional", "Developer onboarding complete"],
    status := "not_started", started_at := none, completed_at := none },
  { id := 6, name := "Data Governance & Analytics",
    phase := "Phase 2: Platform & Foundation",
    description := "Enterprise data management",
    roles := [
    ⟨"Data Architect", "Enterprise data model", ["Data models", "Schema designs", "Lineage documentation"], none⟩,
    ⟨"DBA", "Production database performance", ["Query optimization", "Index tuning", "Backup verification"], none⟩,
    ⟨"Data Privacy Officer", "Retention and deletion rules", ["Data retention policies", "Deletion workflows"], none⟩,
    ⟨"ETL Developer", "Data flow management", ["ETL pipelines", "Data quality checks", "Transformation logic"], none⟩],
    exit_criteria := ["Data models defined", "Pipelines operational", "Privacy controls implemented"],
    status := "not_started", started_at := none, completed_at := none },
  { id := 7, name := "Core Feature Squad",
    phase := "Phase 3: The Build Squads",
    description := "The 'Devs' - Feature implementation",
    roles := [
    ⟨"Technical Lead", "Final word on implementation", ["Code reviews", "Architecture decisions", "Technical guidance"], none⟩,
    ⟨"Senior Backend Engineer", "Logic, APIs, microservices", ["Backend services", "API endpoints", "Business logic"], none⟩,
    ⟨"Senior Frontend Engineer", "Design system, state management", ["UI components", "Frontend architecture", "State logic"], none⟩,
    ⟨"Accessibility (A11y) Expert", "WCAG compliance", ["A11y audits", "Remediation plans", "Testing reports"], none⟩,
    ⟨"Technical Writer", "Internal/external docs", ["API docs", "User guides", "Runbooks"], none⟩],
    exit_criteria := ["Features implemented", "Code reviewed and approved", "Documentation complete", "A11y requirements met"],
    status := "not_started", started_at := none, completed_at := none },
  { id := 8, name := "Middleware & Integration",
    phase := "Phase 3: The Build Squads",
    description := "APIs and system integrations",
    roles := [
    ⟨"API Product Manager", "API lifecycle and versioning", ["API specs", "Versioning strategy", "Deprecation plans"], none⟩,
    ⟨"Integration Engineer", "SAP/Oracle/Mainframe connections", ["Integration specs", "Data mappings", "Error handling"], none⟩,
    ⟨"Messaging Engineer", "Kafka/RabbitMQ management", ["Topic design", "Message schemas", "Consumer groups"], none⟩,
    ⟨"IAM Specialist", "Okta/AD integration", ["Auth flows", "Permission models", "Access policies"], none⟩],
    exit_criteria := ["APIs documented and tested", "Integrations verified", "Auth flows functional"],
    status := "not_started", started_at := none, completed_at := none },
  { id := 9, name := "Cybersecurity (AppSec)",
    phase := "Phase 4: Validation & Hardening",
    description := "Application security",
    roles := [
    ⟨"Security Architect", "Threat model review", ["Threat models", "Security architecture", "Risk assessments"], none⟩,
    ⟨"Vulnerability Researcher", "SAST/DAST/SCA scanners", ["Scan reports", "Vulnerability triage", "Fix verification"], none⟩,
    ⟨"Penetration Tester", "Manual security testing", ["Pen test reports", "Exploit verification", "Remediation"], none⟩,
    ⟨"DevSecOps Engineer", "Security in CI/CD", ["Security gates", "Pipeline integration", "Compliance checks"], none⟩],
    exit_criteria := ["Security review passed", "Vulnerabilities remediated or accepted", "Pen testing complete", "Security gates passing"],
    status := "not_started", started_at := none, completed_at := none },
  { id := 10, name := "Quality Engineering (SDET)",
    phase := "Phase 4: Validation & Hardening",
    description := "Testing and quality assurance",
    roles := [
    ⟨"QA Architect", "Global testing strategy", ["Test strategy", "Test plans", "Coverage reports"], none⟩,
    ⟨"SDET", "Automated test code", ["Test automation", "Framework maintenance", "CI integration"], none⟩,
    ⟨"Performance/Load Engineer", "Scale testing", ["Load test scripts", "Performance baselines", "Capacity reports"], none⟩,
    ⟨"Manual QA / UAT Coordinator", "User acceptance testing", ["Test cases", "UAT coordination", "Sign-off reports"], none⟩],
    exit_criteria := ["Test coverage requirements met", "Performance benchmarks achieved", "UAT sign-off obtained"],
    status := "not_started", started_at := none, completed_at := none },
  { id := 11, name := "Site Reliability Engineering (SRE)",
    phase := "Phase 5: Delivery & Sustainment",
    description := "Reliability and observability",
    roles := [
    ⟨"SRE Lead", "Error budget and uptime SLA", ["SLOs", "Error budgets", "Reliability reports"], none⟩,
    ⟨"Observability Engineer", "Monitoring and logging", ["Dashboards", "Alerts", "Log aggregation", "Traces"], none⟩,
    ⟨"Chaos Engineer", "Resiliency testing", ["Chaos experiments", "Failure scenarios", "Recovery tests"], none⟩,
    ⟨"Incident Manager", "War room leadership", ["Incident response", "Post-mortems", "Runbook updates"], none⟩],
    exit_criteria := ["Monitoring in place", "Alerts configured", "Runbooks complete", "Error budget healthy"],
    status := "not_started", started_at := none, completed_at := none },
  { id := 12, name := "IT Operations & Support (NOC)",
    phase := "Phase 5: Delivery & Sustainment",
    description := "Production operations",
    roles := [
    ⟨"NOC Analyst", "24/7 monitoring", ["Monitoring dashboards", "Alert triage", "Incident tickets"], none⟩,
    ⟨"Change Manager", "Deployment approval", ["Change requests", "Deployment windows", "CAB approval"], none⟩,
    ⟨"Release Manager", "Go/No-Go coordination", ["Release plans", "Rollback procedures", "Coordination"], none⟩,
    ⟨"L3 Support Engineer", "Production bug escalation", ["Root cause analysis", "Hotfix coordination", "KB articles"], none⟩],
    exit_criteria := ["Change approved", "Release deployed", "Support handoff complete"],
    status := "not_started", started_at := none, completed_at := none }]

/-- One token bucket of the RateLimiter, {"tokens": ..., "last_reset": ...}.
Python time.time() values are embedded as integer seconds, on which
int() is the identity. -/
structure Bucket where
  tokens : Int
  last_reset : Int
deriving DecidableEq

/-- The in-memory RateLimiter state; the defaults are DEFAULT_REQUESTS = 100
and DEFAULT_WINDOW = 60 with rate limiting enabled. -/
structure RateLimiterState where
  enabled : Bool := true
  requests_per_window : Int := 100
  window_seconds : Int := 60
  buckets : List (String × Bucket) := []
  last_cleanup : Int := 0
deriving DecidableEq

/-- RateLimiter.CLEANUP_INTERVAL (seconds). -/
def CLEANUP_INTERVAL : Int := 300

/-- Dict lookup self._buckets[user_id] (first binding of the key). -/
def getBucket (buckets : List (String × Bucket)) (user_id : String) : Option Bucket :=
  (buckets.find? (fun ub => ub.1 == user_id)).map (fun ub => ub.2)

/-- Dict write self._buckets[user_id] = b: overwrite the existing binding,
or append a new one in insertion order. -/
def setBucket (buckets : List (String × Bucket)) (user_id : String) (b : Bucket) :
    List (String × Bucket) :=
  if buckets.any (fun ub => ub.1 == user_id) then
    buckets.map (fun ub => if ub.1 == user_id then (user_id, b) else ub)
  else buckets ++ [(user_id, b)]

/-- RateLimiter._cleanup_old_buckets at time now: a no-op within
CLEANUP_INTERVAL of the last cleanup, otherwise evicts every bucket whose
last reset lies more than two windows in the past. -/
def cleanup_old_buckets (st : RateLimiterState) (now : Int) : RateLimiterState :=
  if now - st.last_cleanup < CLEANUP_INTERVAL then st
  else
    { st with
      buckets := st.buckets.filter
        (fun ub => !(decide (st.window_seconds * 2 < now - ub.2.last_reset))),
      last_cleanup := now }

/-- The (limit, remaining, reset_time) triple of rate_limit_info. -/
structure RateInfo where
  limit : Int
  remaining : Int
  reset_time : Int
deriving DecidableEq

/-- RateLimiter.check_rate_limit at time now.  The missing-bucket insertion
followed by the unconditional final write-back is folded into a defaulted
read plus one setBucket, which produces the same dict. -/
def check_rate_limit (st : RateLimiterState) (now : Int) (user_id : String) :
    (Bool × RateInfo) × RateLimiterState :=
  if !st.enabled then ((true, ⟨-1, -1, 0⟩), st)
  else
    let st1 := cleanup_old_buckets st now
    let bucket0 := (getBucket st1.buckets user_id).getD ⟨st1.requests_per_window, now⟩
    let bucket :=
      if st1.window_seconds ≤ now - bucket0.last_reset then
        (⟨st1.requests_per_window, now⟩ : Bucket)
      else bucket0
    let info : RateInfo :=
      ⟨st1.requests_per_window, max 0 (bucket.tokens - 1),
       bucket.last_reset + st1.window_seconds⟩
    if bucket.tokens ≤ 0 then
      ((false, info), { st1 with buckets := setBucket st1.buckets user_id bucket })
    else
      ((true, info),
       { st1 with buckets :=
          setBucket st1.buckets user_id { bucket with tokens := bucket.tokens - 1 } })

/-- A sequence of check_rate_limit calls for one user at the given times,
collecting the allowed/denied verdicts. -/
def runChecks (user_id : String) : RateLimiterState → List Int → List Bool × RateLimiterState
  | st, [] => ([], st)
  | st, t :: ts =>
    let r := check_rate_limit st t user_id
    let rest := runChecks user_id r.2 ts
    (r.1.1 :: rest.1, rest.2)

/-- str.lower() on an ASCII letter (the identifiers the validators accept
are ASCII). -/
def lowerChar (c : Char) : Char :=
  if 65 ≤ c.toNat ∧ c.toNat ≤ 90 then Char.ofNat (c.toNat + 32) else c

/-- str.lower() over a whole string. -/
def strLower (s : String) : String := ⟨s.toList.map lowerChar⟩

/-- TeamManager.get_person_assignments: every (team id, role name) pair, over
all teams, whose truthy assignee equals the person case-insensitively. -/
def get_person_assignments (teams : List Team) (person : String) : List (Nat × String) :=
  teams.flatMap (fun t =>
    t.roles.filterMap (fun r =>
      match r.assigned_to with
      | some p =>
        if !p.isEmpty && strLower p == strLower person then some (t.id, r.name) else none
      | none => none))

/-- Result of check_duplicate_assignment (message text omitted). -/
structure DupResult where
  is_duplicate : Bool
  existing : List (Nat × String)
  action : String
deriving DecidableEq

/-- TeamManager.check_duplicate_assignment under the configuration held in
the context. -/
def check_duplicate_assignment (ctx : MgrCtx) (teams : List Team) (person : String)
    (team_id : Option Nat) : DupResult :=
  if !ctx.dup_enabled then ⟨false, [], "allow"⟩
  else
    let existing := get_person_assignments teams person
    if existing.isEmpty then ⟨false, [], "allow"⟩
    else
      let existing :=
        if ctx.dup_scope == "team" then
          existing.filter (fun a =>
            match team_id with
            | some tid => a.1 == tid
            | none => false)
        else existing
      if !existing.isEmpty then ⟨true, existing, ctx.dup_action⟩
      else ⟨false, [], "allow"⟩

/-- The result of a mutating TeamManager command: the returned boolean, the
in-memory teams afterwards, and the effect trace. -/
structure OpOut where
  ret : Bool
  teams : List Team
  events : List Event
deriving DecidableEq

/-- The assign_role loop over team.roles: mutate the FIRST role of that name
(the loop returns from inside its body) and yield the new list, or none
when no role matches. -/
def assignFirstRole (roles : List Role) (role_name assignee : String) :
    Option (List Role) :=
  match roles with
  | [] => none
  | r :: rs =>
    if r.name == role_name then some ({ r with assigned_to := some assignee } :: rs)
    else
      match assignFirstRole rs role_name assignee with
      | some rs' => some (r :: rs')
      | none => none

/-- The three ways the unassign_role loop can end. -/
inductive UnassignOutcome where
  | notFound
  | alreadyUnassigned
  | unassigned (roles' : List Role)
deriving DecidableEq

/-- The unassign_role loop over team.roles: at the FIRST role of that name,
fail if it is already unassigned, otherwise clear it. -/
def unassignFirstRole (roles : List Role) (role_name : String) : UnassignOutcome :=
  match roles with
  | [] => .notFound
  | r :: rs =>
    if r.name == role_name then
      match r.assigned_to with
      | none => .alreadyUnassigned
      | some _ => .unassigned ({ r with assigned_to := none } :: rs)
    else
      match unassignFirstRole rs role_name with
      | .notFound => .notFound
      | .alreadyUnassigned => .alreadyUnassigned
      | .unassigned rs' => .unassigned (r :: rs')

/-- Set the assignee of the first role of the given name (helper for the
last-match semantics of reassign_role). -/
def setFirstRoleAssignee (roles : List Role) (role_name : String) (v : Option String) :
    List Role :=
  match roles with
  | [] => []
  | r :: rs =>
    if r.name == role_name then { r with assigned_to := v } :: rs
    else r :: setFirstRoleAssignee rs role_name v

/-- The reassign_role lookup loop keeps the LAST role of each name. -/
def findLastRole (roles : List Role) (role_name : String) : Option Role :=
  roles.reverse.find? (fun r => r.name == role_name)

/-- Mutation through the object found by findLastRole: set the assignee of
the last role of the given name. -/
def setLastRoleAssignee (roles : List Role) (role_name : String) (v : Option String) :
    List Role :=
  (setFirstRoleAssignee roles.reverse role_name v).reverse

/-- TeamManager.initialize_project: the authorization gate, then the teams
are replaced by the standard template and saved (no audit append). -/
def initialize_project (ctx : MgrCtx) : Except String (List Team × List Event) :=
  match require_auth ctx.user_context "initialize project" none with
  | .error e => .error e
  | .ok () => .ok (STANDARD_TEAMS, [.save])

/-- TeamManager.assign_role.  Program order: input validation (a ValueError
returns False), the authorization gate (PermissionDenied propagates, the
.error case), the rate-limit check, duplicate detection, team and role
lookup, then mutate the first matching role, save, and append the audit
record.  The rate limiter runs at time now and its state is threaded
through. -/
def assign_role (ctx : MgrCtx) (rl : RateLimiterState) (now : Int) (teams : List Team)
    (team_id : Nat) (role_name assignee : String) :
    Except String (OpOut × RateLimiterState) :=
  match validate_role_name role_name with
  | .error _ => .ok (⟨false, teams, []⟩, rl)
  | .ok () =>
  match validate_person_name assignee with
  | .error _ => .ok (⟨false, teams, []⟩, rl)
  | .ok () =>
  match require_auth ctx.user_context "assign role" (some team_id) with
  | .error e => .error e
  | .ok () =>
    let user_id := match ctx.user_context with
      | some u => u.user_id
      | none => "default"
    let rc := check_rate_limit rl now user_id
    let rl' := rc.2
    if !rc.1.1 then .ok (⟨false, teams, []⟩, rl')
    else
      let dup := check_duplicate_assignment ctx teams assignee (some team_id)
      if dup.is_duplicate && dup.action == "block" then .ok (⟨false, teams, []⟩, rl')
      else
        match findTeam teams team_id with
        | none => .ok (⟨false, teams, []⟩, rl')
        | some team =>
          match assignFirstRole team.roles role_name assignee with
          | none => .ok (⟨false, teams, []⟩, rl')
          | some roles' =>
            .ok (⟨true, updateTeam teams team_id { team with roles := roles' },
                  [.save] ++ auditEvents ctx "assign_role"⟩, rl')

/-- TeamManager.unassign_role: team lookup, then the first matching role; a
role already unassigned returns False with no save and no audit.  The
method performs no authorization and no rate-limit check. -/
def unassign_role (ctx : MgrCtx) (teams : List Team) (team_id : Nat)
    (role_name : String) : OpOut :=
  match findTeam teams team_id with
  | none => ⟨false, teams, []⟩
  | some team =>
    match unassignFirstRole team.roles role_name with
    | .notFound => ⟨false, teams, []⟩
    | .alreadyUnassigned => ⟨false, teams, []⟩
    | .unassigned roles' =>
      ⟨true, updateTeam teams team_id { team with roles := roles' },
       [.save] ++ auditEvents ctx "unassign_role"⟩

/-- TeamManager.reassign_role.  Validation (ValueError returns False), the
authorization gate (.error), team lookup, the single loop keeping the last
role of each name, existence checks for both roles, the expected-assignee
check, then both mutations, one save, one audit append. -/
def reassign_role (ctx : MgrCtx) (teams : List Team) (team_id : Nat)
    (from_role to_role person : String) : Except String OpOut :=
  match validate_role_name from_role with
  | .error _ => .ok ⟨false, teams, []⟩
  | .ok () =>
  match validate_role_name to_role with
  | .error _ => .ok ⟨false, teams, []⟩
  | .ok () =>
  match validate_person_name person with
  | .error _ => .ok ⟨false, teams, []⟩
  | .ok () =>
  match require_auth ctx.user_context "reassign role" (some team_id) with
  | .error e => .error e
  | .ok () =>
    match findTeam teams team_id with
    | none => .ok ⟨false, teams, []⟩
    | some team =>
      match findLastRole team.roles from_role with
      | none => .ok ⟨false, teams, []⟩
      | some fromObj =>
        match findLastRole team.roles to_role with
        | none => .ok ⟨false, teams, []⟩
        | some _toObj =>
          if !(fromObj.assigned_to == some person) then .ok ⟨false, teams, []⟩
          else
            let roles1 := setLastRoleAssignee team.roles from_role none
            let roles2 := setLastRoleAssignee roles1 to_role (some person)
            .ok ⟨true, updateTeam teams team_id { team with roles := roles2 },
                 [.save] ++ auditEvents ctx "reassign_role"⟩

/-- Is the override reason missing (None or empty, Python falsiness)? -/
def reasonMissing : Option String → Bool
  | none => true
  | some s => s.isEmpty

/-- Does the context hold an admin-capable user (the override check)? -/
def hasAdminOverride (ctx : MgrCtx) : Bool :=
  match ctx.user_context with
  | none => false
  | some u => u.has_permission "admin"

/-- TeamManager.start_team: team lookup; with override, an admin user and a
reason are required; then the status is set to active and started_at
recorded UNCONDITIONALLY, whatever the previous status, followed by save
and audit.  There is no authorization gate outside the override path and
no check of the current status. -/
def start_team (ctx : MgrCtx) (teams : List Team) (team_id : Nat) (override : Bool)
    (reason : Option String) (nowIso : String) : OpOut :=
  match findTeam teams team_id with
  | none => ⟨false, teams, []⟩
  | some team =>
    if override && !hasAdminOverride ctx then ⟨false, teams, []⟩
    else if override && reasonMissing reason then ⟨false, teams, []⟩
    else
      ⟨true,
       updateTeam teams team_id { team with status := "active", started_at := some nowIso },
       [.save] ++ auditEvents ctx "start_team"⟩

/-- TeamManager.complete_team: team lookup, then the status is set to
completed and completed_at recorded UNCONDITIONALLY, whatever the previous
status, followed by save and audit.  No authorization gate. -/
def complete_team (ctx : MgrCtx) (teams : List Team) (team_id : Nat)
    (nowIso : String) : OpOut :=
  match findTeam teams team_id with
  | none => ⟨false, teams, []⟩
  | some team =>
    ⟨true,
     updateTeam teams team_id { team with status := "completed", completed_at := some nowIso },
     [.save] ++ auditEvents ctx "complete_team"⟩

/-- The result dict of delete_team (message text omitted). -/
structure DeleteOut where
  success : Bool
  requires_confirmation : Bool
  teams : List Team
  events : List Event
deriving DecidableEq

/-- TeamManager.delete_team: unknown team and unconfirmed calls change
nothing; a confirmed deletion removes the team, saves, then appends the
audit record.  No authorization gate. -/
def delete_team (ctx : MgrCtx) (teams : List Team) (team_id : Nat)
    (confirmed : Bool) : DeleteOut :=
  if !hasTeam teams team_id then ⟨false, false, teams, []⟩
  else if !confirmed then ⟨false, true, teams, []⟩
  else ⟨true, false, removeTeam teams team_id, [.save] ++ auditEvents ctx "delete_team"⟩

/-- The observable outcome of delete_project: the value the Python function
returns (the result dict on the early paths, None after a deletion is
attempted, success or not, because the final path lacks a return), and the
effect trace. -/
structure ProjDeleteOut where
  returned : Option (Bool × Bool)
  events : List Event
deriving DecidableEq

/-- TeamManager.delete_project: missing file and unconfirmed calls return
the result dict with no effect; a confirmed deletion appends the audit
record FIRST (capturing the teams) and only then unlinks the document
file, whose failure is caught.  No authorization gate; no save. -/
def delete_project (ctx : MgrCtx) (config_exists : Bool) (confirmed : Bool)
    (unlinkOk : Bool) : ProjDeleteOut :=
  if !config_exists then ⟨some (false, false), []⟩
  else if !confirmed then ⟨some (false, true), []⟩
  else
    let evs := auditEvents ctx "delete_project"
    if unlinkOk then ⟨none, evs ++ [.unlinkConfig]⟩
    else ⟨none, evs⟩

/-- BackupManager.DEFAULT_MAX_BACKUPS. -/
def DEFAULT_MAX_BACKUPS : Nat := 10

/-- Insertion of one mtime into a list sorted ascending. -/
def insertSorted (x : Int) : List Int → List Int
  | [] => [x]
  | y :: ys => if x ≤ y then x :: y :: ys else y :: insertSorted x ys

/-- The sorted(..., key=mtime) call of _cleanup_old_backups. -/
def sortBackups : List Int → List Int
  | [] => []
  | x :: xs => insertSorted x (sortBackups xs)

/-- The while-loop of _cleanup_old_backups: pop and unlink the oldest entry
while more than max_backups remain. -/
def whileDropOldest (max_backups : Nat) : List Int → List Int
  | [] => []
  | x :: xs =>
    if max_backups < xs.length + 1 then whileDropOldest max_backups xs
    else x :: xs

/-- BackupManager._cleanup_old_backups over the mtimes of the backups of
this project: sort ascending by mtime, then evict oldest-first down to
max_backups. -/
def cleanup_old_backups (max_backups : Nat) (backups : List Int) : List Int :=
  whileDropOldest max_backups (sortBackups backups)

/-- BackupManager.create_backup at mtime now.  Nothing to snapshot when the
document file does not exist (returns None); an exception inside the
copy-and-compress block (copyOk = false) is caught: it is logged and None
is returned without blocking anything.  On success the snapshot is
written, old backups are pruned, and the backup path (here its mtime) is
returned. -/
def create_backup (max_backups : Nat) (config_exists : Bool) (copyOk : Bool)
    (backups : List Int) (now : Int) : Option Int × List Int :=
  if !config_exists then (none, backups)
  else if !copyOk then (none, backups)
  else (some now, cleanup_old_backups max_backups (backups ++ [now]))

/-- A run of saves of an existing document at the given mtimes, each calling
create_backup as TeamManager.save does. -/
def runSaves (max_backups : Nat) : List Int → List Int → List Int
  | backups, [] => backups
  | backups, t :: ts =>
    runSaves max_backups (create_backup max_backups true true backups t).2 ts

/-- The K most recent entries of a list sorted ascending (its length-K
suffix). -/
def lastK (K : Nat) (l : List Int) : List Int := l.drop (l.length - K)

/-- TeamManager.save with the outcomes of its fallible parts made explicit:
the pre-write snapshot (enable_backup, the existence of the file, and
whether the copy inside create_backup succeeds) and the locked atomic
document write itself (writeOk; its failure is logged and re-raised, the
.error case).  The snapshot outcome never decides anything: the write
proceeds regardless. -/
def tm_save (enable_backup : Bool) (config_exists : Bool) (copyOk : Bool)
    (max_backups : Nat) (backups : List Int) (now : Int) (writeOk : Bool) :
    Except String (List Event × List Int) :=
  let bres :=
    if enable_backup && config_exists then
      create_backup max_backups config_exists copyOk backups now
    else (none, backups)
  if writeOk then .ok ([.save], bres.2)
  else .error "config_save_failed"

/-- One audit-ledger record (the fields the embedded claims read). -/
structure AuditRecord where
  timestamp : String
  project : String
  user : String
  role : String
  action : String
deriving DecidableEq

/-- AuditLogger._get_user_id. -/
def get_user_id (uc : Option UserContext) : String :=
  match uc with
  | some u => u.user_id
  | none => "system"

/-- AuditLogger.log_action with the outcome of the locked append made
explicit: the record is built and appended, and any exception from the
filesystem path (appendOk = false) is caught and logged, never propagated,
leaving the ledger as it was. -/
def log_action (project : String) (nowIso : String) (action : String)
    (uc : Option UserContext) (appendOk : Bool) (ledger : List AuditRecord) :
    List AuditRecord :=
  let entry : AuditRecord :=
    ⟨nowIso, project, get_user_id uc,
     (match uc with
      | some u => u.role
      | none => "system"), action⟩
  if appendOk then ledger ++ [entry]
  else ledger

/-- One parsed audit-ledger line as query_audit_log reads it: the timestamp
as parsed by datetime.fromisoformat (none when the field is missing or
not parsable), and the fields the filters touch. -/
structure LogEntry where
  timestamp : Option Int
  user : Option String
  action : Option String
  team_id : Option Int
deriving DecidableEq

/-- One raw line of the ledger file: blank (skipped), malformed JSON
(json.JSONDecodeError, skipped), or a parsed record. -/
inductive LedgerLine where
  | blank
  | malformed
  | record (e : LogEntry)
deriving DecidableEq

/-- The filters of query_audit_log. -/
structure AuditQuery where
  start_time : Option Int := none
  end_time : Option Int := none
  user : Option String := none
  action : Option String := none
  team_id : Option Int := none

/-- A string filter is applied only when truthy (a None or empty filter is
off). -/
def strFilterActive : Option String → Bool
  | none => false
  | some s => !s.isEmpty

/-- What the filter block does with one parsed record: keep it, skip it, or
abort the whole scan.  Abort happens when a time filter is supplied and
the timestamp of the record does not parse: that ValueError is not a
json.JSONDecodeError, so it escapes the per-line handler and lands in the
outer catch-all, which returns the results collected so far. -/
inductive QueryStep where
  | keep
  | skip
  | abort
deriving DecidableEq

/-- The start_time filter. -/
def applyStartFilter (q : AuditQuery) (e : LogEntry) : QueryStep :=
  match q.start_time with
  | none => .keep
  | some st =>
    match e.timestamp with
    | none => .abort
    | some t => if t < st then .skip else .keep

/-- The end_time filter. -/
def applyEndFilter (q : AuditQuery) (e : LogEntry) : QueryStep :=
  match q.end_time with
  | none => .keep
  | some et =>
    match e.timestamp with
    | none => .abort
    | some t => if et < t then .skip else .keep

/-- The filter block of query_audit_log in program order: start_time,
end_time, user, action, team_id, conjunctively. -/
def entryStep (q : AuditQuery) (e : LogEntry) : QueryStep :=
  match applyStartFilter q e with
  | .abort => .abort
  | .skip => .skip
  | .keep =>
    match applyEndFilter q e with
    | .abort => .abort
    | .skip => .skip
    | .keep =>
      if strFilterActive q.user && !(e.user == q.user) then .skip
      else if strFilterActive q.action && !(e.action == q.action) then .skip
      else
        match q.team_id with
        | some tid => if !(e.team_id == some tid) then .skip else .keep
        | none => .keep

/-- The scan loop of query_audit_log: one forward pass, count results
collected so far, append a kept record and break once len(results) >=
limit; an abort ends the scan keeping what was collected. -/
def queryScan (q : AuditQuery) (limit : Int) (count : Nat) :
    List LedgerLine → List LogEntry
  | [] => []
  | .blank :: rest => queryScan q limit count rest
  | .malformed :: rest => queryScan q limit count rest
  | .record e :: rest =>
    match entryStep q e with
    | .abort => []
    | .skip => queryScan q limit count rest
    | .keep =>
      if limit ≤ (count : Int) + 1 then [e]
      else e :: queryScan q limit (count + 1) rest

/-- AuditLogger.query_audit_log over the given ledger lines (the default
limit is 100). -/
def query_audit_log (q : AuditQuery) (limit : Int) (lines : List LedgerLine) :
    List LogEntry :=
  queryScan q limit 0 lines

/-- The records of the ledger that parse. -/
def parsedRecords (lines : List LedgerLine) : List LogEntry :=
  lines.filterMap (fun l =>
    match l with
    | .record e => some e
    | _ => none)

/-- The parsed records that pass every filter. -/
def matchingRecords (q : AuditQuery) (lines : List LedgerLine) : List LogEntry :=
  (parsedRecords lines).filter (fun e => entryStep q e == .keep)

/-- Is a result list sorted by timestamp ascending (records lacking a
timestamp compare as true)? -/
def sortedByTimestamp : List LogEntry → Bool
  | [] => true
  | [_] => true
  | a :: b :: rest =>
    (match a.timestamp, b.timestamp with
     | some x, some y => decide (x ≤ y)
     | _, _ => true) && sortedByTimestamp (b :: rest)

/-- TeamManager.get_phase_status result dict. -/
structure PhaseStatus where
  phase : String
  total_teams : Nat
  completed : Nat
  active : Nat
  not_started : Int
  progress_pct : ℚ
deriving DecidableEq

/-- TeamManager.get_phase_status: counts over the teams of the phase, with
the progress division guarded by total > 0.  A pure read: it takes the
teams and returns only a summary. -/
def get_phase_status (teams : List Team) (phase : String) : PhaseStatus :=
  let phase_teams := teams.filter (fun t => t.phase == phase)
  let total := phase_teams.length
  let completed := (phase_teams.filter (fun t => t.status == "completed")).length
  let active := (phase_teams.filter (fun t => t.status == "active")).length
  { phase := phase
    total_teams := total
    completed := completed
    active := active
    not_started := (total : Int) - completed - active
    progress_pct := if 0 < total then (completed : ℚ) / total * 100 else 0 }

/-- A context with no user at all. -/
def noUserCtx : MgrCtx := {}

/-- A context acting as an admin user. -/
def adminCtx : MgrCtx := { user_context := some { user_id := "root", role := "admin" } }

/-- A context acting as a viewer (below team-lead). -/
def viewerCtx : MgrCtx := { user_context := some { user_id := "eve", role := "viewer" } }

/-- Fixture role, unassigned. -/
def wRole : Role := { name := "Technical Lead", responsibility := "", deliverables := [] }

/-- Fixture team holding the one unassigned role. -/
def wTeam : Team :=
  { id := 1, name := "Core Feature Squad", phase := "Phase 3: The Build Squads",
    description := "", roles := [wRole], exit_criteria := [] }

/-- Fixture team already completed. -/
def wTeamDone : Team :=
  { wTeam with status := "completed", started_at := some "S1", completed_at := some "C1" }

/-- Fixture role assigned to alice. -/
def wRoleAlice : Role := { wRole with assigned_to := some "alice" }

/-- Fixture team whose role is assigned to alice. -/
def wTeamAlice : Team := { wTeam with roles := [wRoleAlice] }

/-- Fixture parsed audit record at timestamp 1. -/
def qRec1 : LogEntry :=
  { timestamp := some 1, user := some "alice", action := some "assign_role", team_id := some 1 }

/-- Fixture parsed audit record at timestamp 2. -/
def qRec2 : LogEntry :=
  { timestamp := some 2, user := some "alice", action := some "assign_role", team_id := some 1 }

/-- The rate-limiter state after the witness assign_role call below: the
admin user got a fresh bucket at time 0 and consumed one token. -/
def rlA : RateLimiterState := { buckets := [("root", ⟨99, 0⟩)] }

/-- Fixture team holding the assigned source role and an unassigned target
role of a different name. -/
def wTeam2 : Team :=
  { wTeam with roles := [wRoleAlice, { name := "SDET", responsibility := "", deliverables := [] }] }

/-- Fixture record for a different user. -/
def qRecBob : LogEntry :=
  { timestamp := some 3, user := some "bob", action := some "start_team", team_id := some 2 }

/-- The effect-trace shape of a command that saves the document before any
audit append: either no effect at all, or the save followed by the (possibly
disabled) audit append for the action. -/
def saveThenAudit (ctx : MgrCtx) (action : String) (evs : List Event) : Prop :=
  evs = [] ∨ evs = .save :: auditEvents ctx action

/-! ## Shared helper lemmas -/

theorem findTeam_some_id {teams : List Team} {tid : Nat} {team : Team}
    (h : findTeam teams tid = some team) : team.id = tid := by
  have := List.find?_some h
  simpa using this

theorem findTeam_cons (a : Team) (as : List Team) (tid : Nat) :
    findTeam (a :: as) tid = if a.id = tid then some a else findTeam as tid := by
  by_cases h : a.id = tid
  · rw [if_pos h]
    exact List.find?_cons_of_pos _ (by simpa using h)
  · rw [if_neg h]
    exact List.find?_cons_of_neg _ (by simpa using h)

theorem updateTeam_cons (a : Team) (as : List Team) (tid : Nat) (t' : Team) :
    updateTeam (a :: as) tid t' =
      (if a.id == tid then t' else a) :: updateTeam as tid t' := rfl

theorem findTeam_updateTeam_self {teams : List Team} {tid : Nat} {team t' : Team}
    (h : findTeam teams tid = some team) (hid : t'.id = tid) :
    findTeam (updateTeam teams tid t') tid = some t' := by
  induction teams with
  | nil => simp [findTeam] at h
  | cons a as ih =>
    rw [findTeam_cons] at h
    rw [updateTeam_cons]
    by_cases ha : a.id = tid
    · have h1 : (if a.id == tid then t' else a) = t' := by simp [ha]
      rw [h1, findTeam_cons, if_pos hid]
    · rw [if_neg ha] at h
      have h1 : (if a.id == tid then t' else a) = a := by simp [ha]
      rw [h1, findTeam_cons, if_neg ha]
      exact ih h

theorem findTeam_updateTeam_ne {teams : List Team} {tid tid2 : Nat} {t' : Team}
    (hid : t'.id = tid) (hne : tid2 ≠ tid) :
    findTeam (updateTeam teams tid t') tid2 = findTeam teams tid2 := by
  induction teams with
  | nil => simp [findTeam, updateTeam]
  | cons a as ih =>
    rw [updateTeam_cons]
    by_cases ha : a.id = tid
    · have h1 : (if a.id == tid then t' else a) = t' := by simp [ha]
      have h2 : ¬ t'.id = tid2 := by rw [hid]; exact fun hx => hne hx.symm
      have h3 : ¬ a.id = tid2 := by rw [ha]; exact fun hx => hne hx.symm
      rw [h1, findTeam_cons, findTeam_cons, if_neg h2, if_neg h3]
      exact ih
    · have h1 : (if a.id == tid then t' else a) = a := by simp [ha]
      rw [h1, findTeam_cons, findTeam_cons]
      by_cases ha2 : a.id = tid2
      · rw [if_pos ha2, if_pos ha2]
      · rw [if_neg ha2, if_neg ha2]
        exact ih

theorem require_auth_denied {uc : Option UserContext}
    (h : uc = none ∨ ∃ u, uc = some u ∧ u.has_permission "team-lead" = false)
    (operation : String) (team_id : Option Nat) :
    ∃ e, require_auth uc operation team_id = .error e := by
  rcases h with h | ⟨u, hu, hperm⟩
  · subst h
    exact ⟨_, rfl⟩
  · subst hu
    refine ⟨"User " ++ u.user_id ++ " with role " ++ u.role ++
      " does not have permission to " ++ operation, ?_⟩
    have hcond : ¬ (u.has_permission "team-lead" = true) := by simp [hperm]
    simp only [require_auth]
    rw [if_pos hcond]

theorem unassignFirstRole_already {roles : List Role} {role_name : String} {r : Role}
    (h : roles.find? (fun x => x.name == role_name) = some r)
    (hn : r.assigned_to = none) :
    unassignFirstRole roles role_name = .alreadyUnassigned := by
  induction roles with
  | nil => simp at h
  | cons a as ih =>
    by_cases ha : a.name = role_name
    · have hfind := List.find?_cons_of_pos (p := fun x => x.name == role_name) as
        (a := a) (by simpa using ha)
      rw [hfind] at h
      have har : a = r := Option.some.inj h
      subst har
      simp [unassignFirstRole, ha, hn]
    · have hfind := List.find?_cons_of_neg (p := fun x => x.name == role_name) as
        (a := a) (by simpa using ha)
      rw [hfind] at h
      simp [unassignFirstRole, ha, ih h]

/-! ## C10 -/

/-- C10: get_phase_status is total on a phase with zero teams: the progress
division is guarded, so a phase name matching no team yields total_teams 0
and progress_pct 0 (and zero counts throughout); being a pure read, it
leaves the teams untouched by construction. -/
theorem C10_phase_status_total (teams : List Team) (phase : String)
    (h : ∀ t ∈ teams, t.phase ≠ phase) :
    (get_phase_status teams phase).total_teams = 0 ∧
    (get_phase_status teams phase).progress_pct = 0 ∧
    (get_phase_status teams phase).completed = 0 ∧
    (get_phase_status teams phase).active = 0 ∧
    (get_phase_status teams phase).not_started = 0 := by
  have hfilter : teams.filter (fun t => t.phase == phase) = [] := by
    rw [List.filter_eq_nil_iff]
    intro t ht
    simpa using h t ht
  simp [get_phase_status, hfilter]

/-- Witness for C10 at the standard template and a phase it does not hold. -/
theorem C10_phase_status_total_witness :
    (∀ t ∈ STANDARD_TEAMS, t.phase ≠ "Phase 9: Nonexistent") ∧
    ((get_phase_status STANDARD_TEAMS "Phase 9: Nonexistent").total_teams = 0 ∧
     (get_phase_status STANDARD_TEAMS "Phase 9: Nonexistent").progress_pct = 0 ∧
     (get_phase_status STANDARD_TEAMS "Phase 9: Nonexistent").completed = 0 ∧
     (get_phase_status STANDARD_TEAMS "Phase 9: Nonexistent").active = 0 ∧
     (get_phase_status STANDARD_TEAMS "Phase 9: Nonexistent").not_started = 0) :=
  ⟨by decide, C10_phase_status_total STANDARD_TEAMS "Phase 9: Nonexistent" (by decide)⟩

/-! ## C9 -/

/-- C9: unassign_role on a role whose assignee is already None returns False
and has no effect: the teams are returned unchanged, and the effect trace is
empty (no document save, no audit append). -/
theorem C9_unassign_already_none (ctx : MgrCtx) (teams : List Team) (team_id : Nat)
    (role_name : String) (team : Team) (r : Role)
    (hteam : findTeam teams team_id = some team)
    (hrole : team.roles.find? (fun x => x.name == role_name) = some r)
    (hnone : r.assigned_to = none) :
    unassign_role ctx teams team_id role_name = ⟨false, teams, []⟩ := by
  simp only [unassign_role, hteam, unassignFirstRole_already hrole hnone]

/-- Witness for C9 on the fixture team with its unassigned role. -/
theorem C9_unassign_already_none_witness :
    findTeam [wTeam] 1 = some wTeam ∧
    wTeam.roles.find? (fun x => x.name == "Technical Lead") = some wRole ∧
    wRole.assigned_to = none ∧
    unassign_role noUserCtx [wTeam] 1 "Technical Lead" = ⟨false, [wTeam], []⟩ :=
  ⟨rfl, rfl, rfl,
   C9_unassign_already_none noUserCtx [wTeam] 1 "Technical Lead" wTeam wRole rfl rfl rfl⟩

/-! ## C1 -/

/-- C1 counterexample: complete_team invoked with NO user context at all does
not raise PermissionDenied: it succeeds, mutates the team, saves and audits.
The same holds for unassign_role, start_team, delete_team and delete_project,
which never call _require_auth. -/
theorem C1_counterexample :
    complete_team noUserCtx [wTeam] 1 "T1" =
      ⟨true, [{ wTeam with status := "completed", completed_at := some "T1" }],
       [.save, .audit "complete_team"]⟩ ∧
    ([{ wTeam with status := "completed", completed_at := some "T1" }] : List Team) ≠
      [wTeam] ∧
    noUserCtx.user_context = none :=
  ⟨rfl, by decide, rfl⟩

/-- C1 as amended: only assign_role, reassign_role and initialize_project are
wrapped by the authorization gate.  For those three, a missing user context
or a user below team-lead yields PermissionDenied (the .error case) before
any change, save or audit — provided the input validation that precedes the
gate passes.  The remaining mutating operations (unassign_role, start_team
without override, complete_team, delete_team, delete_project) consult the
user context not at all: their outcome is identical for every user context
including none. -/
theorem C1_auth_gate (ctx : MgrCtx) (rl : RateLimiterState) (now : Int)
    (teams : List Team) (tid : Nat) (role_name assignee from_role to_role person : String)
    (hv1 : validate_role_name role_name = .ok ())
    (hv2 : validate_person_name assignee = .ok ())
    (hv3 : validate_role_name from_role = .ok ())
    (hv4 : validate_role_name to_role = .ok ())
    (hv5 : validate_person_name person = .ok ())
    (hdenied : ctx.user_context = none ∨
      ∃ u, ctx.user_context = some u ∧ u.has_permission "team-lead" = false) :
    (∃ e, assign_role ctx rl now teams tid role_name assignee = .error e) ∧
    (∃ e, reassign_role ctx teams tid from_role to_role person = .error e) ∧
    (∃ e, initialize_project ctx = .error e) ∧
    (∀ uc2, unassign_role { ctx with user_context := uc2 } teams tid role_name =
      unassign_role ctx teams tid role_name) ∧
    (∀ uc2 reason nowIso,
      start_team { ctx with user_context := uc2 } teams tid false reason nowIso =
        start_team ctx teams tid false reason nowIso) ∧
    (∀ uc2 nowIso, complete_team { ctx with user_context := uc2 } teams tid nowIso =
      complete_team ctx teams tid nowIso) ∧
    (∀ uc2 confirmed, delete_team { ctx with user_context := uc2 } teams tid confirmed =
      delete_team ctx teams tid confirmed) ∧
    (∀ uc2 ce confirmed ul,
      delete_project { ctx with user_context := uc2 } ce confirmed ul =
        delete_project ctx ce confirmed ul) := by
  obtain ⟨e1, he1⟩ := require_auth_denied hdenied "assign role" (some tid)
  obtain ⟨e2, he2⟩ := require_auth_denied hdenied "reassign role" (some tid)
  obtain ⟨e3, he3⟩ := require_auth_denied hdenied "initialize project" none
  refine ⟨⟨e1, ?_⟩, ⟨e2, ?_⟩, ⟨e3, ?_⟩, fun uc2 => rfl, fun uc2 reason nowIso => rfl,
    fun uc2 nowIso => rfl, fun uc2 confirmed => rfl, fun uc2 ce confirmed ul => rfl⟩
  · unfold assign_role
    rw [hv1, hv2, he1]
  · unfold reassign_role
    rw [hv3, hv4, hv5, he2]
  · unfold initialize_project
    rw [he3]

/-- Witness for C1 with no user context at all and valid inputs. -/
theorem C1_auth_gate_witness :
    validate_role_name "Technical Lead" = .ok () ∧
    validate_person_name "alice" = .ok () ∧
    validate_role_name "SDET" = .ok () ∧
    (noUserCtx.user_context = none ∨
      ∃ u, noUserCtx.user_context = some u ∧ u.has_permission "team-lead" = false) ∧
    ((∃ e, assign_role noUserCtx {} 0 [wTeam] 1 "Technical Lead" "alice" = .error e) ∧
     (∃ e, reassign_role noUserCtx [wTeam] 1 "Technical Lead" "SDET" "alice" = .error e) ∧
     (∃ e, initialize_project noUserCtx = .error e) ∧
     (∀ uc2, unassign_role { noUserCtx with user_context := uc2 } [wTeam] 1 "Technical Lead" =
       unassign_role noUserCtx [wTeam] 1 "Technical Lead") ∧
     (∀ uc2 reason nowIso,
       start_team { noUserCtx with user_context := uc2 } [wTeam] 1 false reason nowIso =
         start_team noUserCtx [wTeam] 1 false reason nowIso) ∧
     (∀ uc2 nowIso, complete_team { noUserCtx with user_context := uc2 } [wTeam] 1 nowIso =
       complete_team noUserCtx [wTeam] 1 nowIso) ∧
     (∀ uc2 confirmed, delete_team { noUserCtx with user_context := uc2 } [wTeam] 1 confirmed =
       delete_team noUserCtx [wTeam] 1 confirmed) ∧
     (∀ uc2 ce confirmed ul,
       delete_project { noUserCtx with user_context := uc2 } ce confirmed ul =
         delete_project noUserCtx ce confirmed ul)) :=
  ⟨rfl, rfl, rfl, Or.inl rfl,
   C1_auth_gate noUserCtx {} 0 [wTeam] 1 "Technical Lead" "alice" "Technical Lead" "SDET"
     "alice" rfl rfl rfl rfl rfl (Or.inl rfl)⟩

/-! ## C2 -/

/-- C2 counterexample: start_team on a COMPLETED team succeeds and silently
reverts it to active, with completed_at still set while the status is no
longer completed — so the claimed transition guard and the preservation of
the completed_at-iff-completed relation both fail. -/
theorem C2_counterexample :
    start_team noUserCtx [wTeamDone] 1 false none "T2" =
      ⟨true, [{ wTeamDone with status := "active", started_at := some "T2" }],
       [.save, .audit "start_team"]⟩ ∧
    wTeamDone.status = "completed" ∧
    ({ wTeamDone with status := "active", started_at := some "T2" } : Team).completed_at =
      some "C1" ∧
    ({ wTeamDone with status := "active", started_at := some "T2" } : Team).status ≠
      "completed" :=
  ⟨rfl, rfl, rfl, by decide⟩

/-- C2 as amended: start_team (without override) and complete_team perform no
status-machine check at all.  On any existing team, whatever its current
status, start_team succeeds, setting exactly status := active and started_at,
and complete_team succeeds, setting exactly status := completed and
completed_at (so after complete_team the completed status and completed_at
agree); every other team is left unchanged.  In particular a completed team
is silently reverted by start_team, which does not touch completed_at. -/
theorem C2_status_machine (ctx : MgrCtx) (teams : List Team) (tid : Nat) (team : Team)
    (reason : Option String) (nowIso : String)
    (hteam : findTeam teams tid = some team) :
    (start_team ctx teams tid false reason nowIso).ret = true ∧
    findTeam (start_team ctx teams tid false reason nowIso).teams tid =
      some { team with status := "active", started_at := some nowIso } ∧
    (∀ tid2, tid2 ≠ tid →
      findTeam (start_team ctx teams tid false reason nowIso).teams tid2 =
        findTeam teams tid2) ∧
    (complete_team ctx teams tid nowIso).ret = true ∧
    findTeam (complete_team ctx teams tid nowIso).teams tid =
      some { team with status := "completed", completed_at := some nowIso } ∧
    (∀ tid2, tid2 ≠ tid →
      findTeam (complete_team ctx teams tid nowIso).teams tid2 = findTeam teams tid2) ∧
    ({ team with status := "active", started_at := some nowIso } : Team).completed_at =
      team.completed_at ∧
    (({ team with status := "completed", completed_at := some nowIso } : Team).status =
      "completed" ∧
     ({ team with status := "completed", completed_at := some nowIso } : Team).completed_at =
      some nowIso) := by
  have hid : team.id = tid := findTeam_some_id hteam
  have hs : start_team ctx teams tid false reason nowIso =
      ⟨true, updateTeam teams tid { team with status := "active", started_at := some nowIso },
       [.save] ++ auditEvents ctx "start_team"⟩ := by
    simp [start_team, hteam]
  have hc : complete_team ctx teams tid nowIso =
      ⟨true,
       updateTeam teams tid { team with status := "completed", completed_at := some nowIso },
       [.save] ++ auditEvents ctx "complete_team"⟩ := by
    simp [complete_team, hteam]
  refine ⟨by rw [hs], ?_, ?_, by rw [hc], ?_, ?_, rfl, rfl, rfl⟩
  · rw [hs]
    exact findTeam_updateTeam_self hteam hid
  · intro tid2 hne
    rw [hs]
    exact findTeam_updateTeam_ne hid hne
  · rw [hc]
    exact findTeam_updateTeam_self hteam hid
  · intro tid2 hne
    rw [hc]
    exact findTeam_updateTeam_ne hid hne

/-- Witness for C2 on the fixture team. -/
theorem C2_status_machine_witness :
    findTeam [wTeam] 1 = some wTeam ∧
    ((start_team adminCtx [wTeam] 1 false none "T3").ret = true ∧
     findTeam (start_team adminCtx [wTeam] 1 false none "T3").teams 1 =
       some { wTeam with status := "active", started_at := some "T3" } ∧
     (∀ tid2, tid2 ≠ 1 →
       findTeam (start_team adminCtx [wTeam] 1 false none "T3").teams tid2 =
         findTeam [wTeam] tid2) ∧
     (complete_team adminCtx [wTeam] 1 "T3").ret = true ∧
     findTeam (complete_team adminCtx [wTeam] 1 "T3").teams 1 =
       some { wTeam with status := "completed", completed_at := some "T3" } ∧
     (∀ tid2, tid2 ≠ 1 →
       findTeam (complete_team adminCtx [wTeam] 1 "T3").teams tid2 = findTeam [wTeam] tid2) ∧
     ({ wTeam with status := "active", started_at := some "T3" } : Team).completed_at =
       wTeam.completed_at ∧
     (({ wTeam with status := "completed", completed_at := some "T3" } : Team).status =
       "completed" ∧
      ({ wTeam with status := "completed", completed_at := some "T3" } : Team).completed_at =
       some "T3")) :=
  ⟨rfl, C2_status_machine adminCtx [wTeam] 1 wTeam none "T3" rfl⟩

/-! ## C7 -/

/-- C7: backup and audit are best-effort relative to the document write.
create_backup returns None (not an error) when no prior document exists and
when the copy fails, each time leaving the backups unchanged; tm_save still
performs the document write and succeeds when the snapshot copy fails; and a
failing audit append inside log_action is swallowed, leaving the ledger as it
was, while a successful one appends exactly one record. -/
theorem C7_best_effort :
    (∀ maxB copyOk backups now,
      create_backup maxB false copyOk backups now = (none, backups)) ∧
    (∀ maxB backups now, create_backup maxB true false backups now = (none, backups)) ∧
    (∀ eb ce maxB backups now,
      tm_save eb ce false maxB backups now true = .ok ([.save], backups)) ∧
    (∀ p n a uc ledger, log_action p n a uc false ledger = ledger) ∧
    (∀ p n a uc ledger, ∃ r, log_action p n a uc true ledger = ledger ++ [r]) := by
  refine ⟨fun maxB copyOk backups now => rfl, fun maxB backups now => rfl,
    fun eb ce maxB backups now => ?_, fun p n a uc ledger => rfl,
    fun p n a uc ledger => ⟨_, rfl⟩⟩
  cases eb <;> cases ce <;> rfl

/-! ## C3 -/

/-- C3 counterexample: delete_project appends its audit record BEFORE the
document file is deleted — its effect trace is the audit append followed by
the unlink, with no save at all — so the save-before-audit ordering does not
extend to project deletion as the claim states. -/
theorem C3_counterexample :
    (delete_project adminCtx true true true).events =
      [.audit "delete_project", .unlinkConfig] ∧
    (delete_project adminCtx true true true).events.head? ≠ some .save :=
  ⟨rfl, by decide⟩

/-- C3 as amended: every mutating command that saves and audits emits the
document save strictly before the audit append — the trace of assign_role,
unassign_role, reassign_role, start_team, complete_team and delete_team is
empty or the save followed by the (possibly disabled) audit append, and
initialize_project emits exactly the save — while delete_project, which has
no save, instead appends its audit record (capturing the teams) first and
only then unlinks the document file. -/
theorem C3_save_before_audit :
    (∀ ctx rl now teams tid rn an out,
      assign_role ctx rl now teams tid rn an = .ok out →
      saveThenAudit ctx "assign_role" out.1.events) ∧
    (∀ ctx teams tid rn, saveThenAudit ctx "unassign_role" (unassign_role ctx teams tid rn).events) ∧
    (∀ ctx teams tid fr tr p out, reassign_role ctx teams tid fr tr p = .ok out →
      saveThenAudit ctx "reassign_role" out.events) ∧
    (∀ ctx teams tid ov reason nowIso,
      saveThenAudit ctx "start_team" (start_team ctx teams tid ov reason nowIso).events) ∧
    (∀ ctx teams tid nowIso,
      saveThenAudit ctx "complete_team" (complete_team ctx teams tid nowIso).events) ∧
    (∀ ctx teams tid confirmed,
      saveThenAudit ctx "delete_team" (delete_team ctx teams tid confirmed).events) ∧
    (∀ ctx out, initialize_project ctx = .ok out → out.2 = [.save]) ∧
    (∀ ctx ce confirmed ul,
      (delete_project ctx ce confirmed ul).events = [] ∨
      (delete_project ctx ce confirmed ul).events =
        auditEvents ctx "delete_project" ++ [.unlinkConfig] ∨
      (delete_project ctx ce confirmed ul).events = auditEvents ctx "delete_project") := by
  refine ⟨?_, ?_, ?_, ?_, ?_, ?_, ?_, ?_⟩
  · intro ctx rl now teams tid rn an out h
    unfold assign_role at h
    try dsimp only at h
    repeat' split at h
    all_goals cases h
    all_goals simp [saveThenAudit]
  · intro ctx teams tid rn
    unfold unassign_role
    try dsimp only
    repeat' split
    all_goals simp [saveThenAudit]
  · intro ctx teams tid fr tr p out h
    unfold reassign_role at h
    try dsimp only at h
    repeat' split at h
    all_goals cases h
    all_goals simp [saveThenAudit]
  · intro ctx teams tid ov reason nowIso
    unfold start_team
    try dsimp only
    repeat' split
    all_goals simp [saveThenAudit]
  · intro ctx teams tid nowIso
    unfold complete_team
    try dsimp only
    repeat' split
    all_goals simp [saveThenAudit]
  · intro ctx teams tid confirmed
    unfold delete_team
    try dsimp only
    repeat' split
    all_goals simp [saveThenAudit]
  · intro ctx out h
    unfold initialize_project at h
    split at h
    · cases h
    · cases h
      rfl
  · intro ctx ce confirmed ul
    unfold delete_project
    try dsimp only
    repeat' split
    all_goals simp

/-- Witness for C3 on a successful assign_role and initialize_project. -/
theorem C3_save_before_audit_witness :
    assign_role adminCtx {} 0 [wTeam] 1 "Technical Lead" "alice" =
      .ok (⟨true, [wTeamAlice], [.save, .audit "assign_role"]⟩, rlA) ∧
    saveThenAudit adminCtx "assign_role"
      (((⟨true, [wTeamAlice], [.save, .audit "assign_role"]⟩, rlA) :
        OpOut × RateLimiterState)).1.events ∧
    initialize_project adminCtx = .ok (STANDARD_TEAMS, [.save]) ∧
    ((STANDARD_TEAMS, ([.save] : List Event)) : List Team × List Event).2 = [.save] := by
  have heq : assign_role adminCtx {} 0 [wTeam] 1 "Technical Lead" "alice" =
      .ok (⟨true, [wTeamAlice], [.save, .audit "assign_role"]⟩, rlA) := rfl
  have heq2 : initialize_project adminCtx = .ok (STANDARD_TEAMS, [.save]) := rfl
  exact ⟨heq, C3_save_before_audit.1 _ _ _ _ _ _ _ _ heq, heq2,
    C3_save_before_audit.2.2.2.2.2.2.1 _ _ heq2⟩

/-! ## C6 -/

theorem find?_setFirstRole_self {rs : List Role} {nm : String} {r : Role} (v : Option String)
    (h : rs.find? (fun x => x.name == nm) = some r) :
    (setFirstRoleAssignee rs nm v).find? (fun x => x.name == nm) =
      some { r with assigned_to := v } := by
  induction rs with
  | nil => simp at h
  | cons a as ih =>
    by_cases ha : a.name = nm
    · rw [List.find?_cons_of_pos _ (by simpa using ha)] at h
      obtain rfl := Option.some.inj h
      have hupd : setFirstRoleAssignee (a :: as) nm v = { a with assigned_to := v } :: as := by
        simp [setFirstRoleAssignee, ha]
      rw [hupd, List.find?_cons_of_pos _ (by simpa using ha)]
    · rw [List.find?_cons_of_neg _ (by simpa using ha)] at h
      have hupd : setFirstRoleAssignee (a :: as) nm v = a :: setFirstRoleAssignee as nm v := by
        simp [setFirstRoleAssignee, ha]
      rw [hupd, List.find?_cons_of_neg _ (by simpa using ha)]
      exact ih h

theorem find?_setFirstRole_ne {rs : List Role} {nm nm' : String} (hne : nm' ≠ nm)
    (v : Option String) :
    (setFirstRoleAssignee rs nm v).find? (fun x => x.name == nm') =
      rs.find? (fun x => x.name == nm') := by
  induction rs with
  | nil => rfl
  | cons a as ih =>
    by_cases ha : a.name = nm
    · have hupd : setFirstRoleAssignee (a :: as) nm v = { a with assigned_to := v } :: as := by
        simp [setFirstRoleAssignee, ha]
      have hnot : ¬ (a.name = nm') := by rw [ha]; exact fun hx => hne hx.symm
      rw [hupd, List.find?_cons_of_neg _ (by simpa using hnot),
        List.find?_cons_of_neg _ (by simpa using hnot)]
    · have hupd : setFirstRoleAssignee (a :: as) nm v = a :: setFirstRoleAssignee as nm v := by
        simp [setFirstRoleAssignee, ha]
      rw [hupd]
      by_cases ha2 : a.name = nm'
      · rw [List.find?_cons_of_pos _ (by simpa using ha2),
          List.find?_cons_of_pos _ (by simpa using ha2)]
      · rw [List.find?_cons_of_neg _ (by simpa using ha2),
          List.find?_cons_of_neg _ (by simpa using ha2)]
        exact ih

theorem findLastRole_setLast_self {rs : List Role} {nm : String} {r : Role}
    (v : Option String) (h : findLastRole rs nm = some r) :
    findLastRole (setLastRoleAssignee rs nm v) nm = some { r with assigned_to := v } := by
  unfold findLastRole at h ⊢
  unfold setLastRoleAssignee
  rw [List.reverse_reverse]
  exact find?_setFirstRole_self v h

theorem findLastRole_setLast_ne {rs : List Role} {nm nm' : String} (hne : nm' ≠ nm)
    (v : Option String) :
    findLastRole (setLastRoleAssignee rs nm v) nm' = findLastRole rs nm' := by
  unfold findLastRole setLastRoleAssignee
  rw [List.reverse_reverse]
  exact find?_setFirstRole_ne hne v

/-- C6 counterexample: with source and target being the SAME role name,
reassign_role succeeds (the expected assignee matches), yet the source
role's assignee does not become None — it stays the person — refuting the
claimed post-state of every successful reassignment. -/
theorem C6_counterexample :
    reassign_role adminCtx [wTeamAlice] 1 "Technical Lead" "Technical Lead" "alice" =
      .ok ⟨true, [wTeamAlice], [.save, .audit "reassign_role"]⟩ ∧
    findLastRole wTeamAlice.roles "Technical Lead" = some wRoleAlice ∧
    wRoleAlice.assigned_to = some "alice" ∧
    some "alice" ≠ (none : Option String) :=
  ⟨rfl, rfl, rfl, by decide⟩

/-- C6 as amended: under passing validation and authorization, on a team
holding the source role: if the source role's current assignee differs from
the expected person, reassign_role fails entirely — False, teams unchanged,
no save and no audit; if it succeeds on two DISTINCT role names, the one
saved update clears the source role, assigns the target role to the person,
and touches no other role (when source and target are the same name, the
role simply ends assigned to the person). -/
theorem C6_reassign_atomic (ctx : MgrCtx) (teams : List Team) (tid : Nat)
    (from_role to_role person : String) (team : Team) (fr : Role)
    (hv1 : validate_role_name from_role = .ok ())
    (hv2 : validate_role_name to_role = .ok ())
    (hv3 : validate_person_name person = .ok ())
    (hauth : require_auth ctx.user_context "reassign role" (some tid) = .ok ())
    (hteam : findTeam teams tid = some team)
    (hfrom : findLastRole team.roles from_role = some fr) :
    (fr.assigned_to ≠ some person →
      reassign_role ctx teams tid from_role to_role person = .ok ⟨false, teams, []⟩) ∧
    (∀ tr, findLastRole team.roles to_role = some tr →
      fr.assigned_to = some person →
      from_role ≠ to_role →
      reassign_role ctx teams tid from_role to_role person =
        .ok ⟨true,
          updateTeam teams tid
            { team with roles :=
                (setLastRoleAssignee (setLastRoleAssignee team.roles from_role none)
                  to_role (some person)) },
          [.save] ++ auditEvents ctx "reassign_role"⟩ ∧
      findLastRole
          (setLastRoleAssignee (setLastRoleAssignee team.roles from_role none)
            to_role (some person)) from_role = some { fr with assigned_to := none } ∧
      findLastRole
          (setLastRoleAssignee (setLastRoleAssignee team.roles from_role none)
            to_role (some person)) to_role = some { tr with assigned_to := some person } ∧
      (∀ nm, nm ≠ from_role → nm ≠ to_role →
        findLastRole
          (setLastRoleAssignee (setLastRoleAssignee team.roles from_role none)
            to_role (some person)) nm = findLastRole team.roles nm)) := by
  constructor
  · intro hne
    have hbeq : (fr.assigned_to == some person) = false := by
      simpa using hne
    cases hto : findLastRole team.roles to_role with
    | none =>
      simp only [reassign_role, hv1, hv2, hv3, hauth, hteam, hfrom, hto]
    | some tr =>
      simp only [reassign_role, hv1, hv2, hv3, hauth, hteam, hfrom, hto, hbeq]
      rfl
  · intro tr hto heq hnefromto
    have hbeq : (fr.assigned_to == some person) = true := by
      simp [heq]
    refine ⟨?_, ?_, ?_, ?_⟩
    · simp only [reassign_role, hv1, hv2, hv3, hauth, hteam, hfrom, hto, hbeq]
      rfl
    · rw [findLastRole_setLast_ne hnefromto (some person)]
      exact findLastRole_setLast_self none hfrom
    · have h1 : findLastRole (setLastRoleAssignee team.roles from_role none) to_role =
          some tr := by
        rw [findLastRole_setLast_ne (Ne.symm hnefromto) none]
        exact hto
      exact findLastRole_setLast_self (some person) h1
    · intro nm hn1 hn2
      rw [findLastRole_setLast_ne hn2 (some person), findLastRole_setLast_ne hn1 none]

/-- Witness for C6 on the fixture team, exercising both the mismatch branch
(expected person bob, actual alice) and the successful distinct-role branch. -/
theorem C6_reassign_atomic_witness :
    validate_role_name "Technical Lead" = .ok () ∧
    validate_role_name "SDET" = .ok () ∧
    validate_person_name "bob" = .ok () ∧
    validate_person_name "alice" = .ok () ∧
    require_auth adminCtx.user_context "reassign role" (some 1) = .ok () ∧
    findTeam [wTeam2] 1 = some wTeam2 ∧
    findLastRole wTeam2.roles "Technical Lead" = some wRoleAlice ∧
    wRoleAlice.assigned_to ≠ some "bob" ∧
    reassign_role adminCtx [wTeam2] 1 "Technical Lead" "SDET" "bob" = .ok ⟨false, [wTeam2], []⟩ ∧
    (reassign_role adminCtx [wTeam2] 1 "Technical Lead" "SDET" "alice" =
      .ok ⟨true,
        updateTeam [wTeam2] 1
          { wTeam2 with roles :=
              (setLastRoleAssignee (setLastRoleAssignee wTeam2.roles "Technical Lead" none)
                "SDET" (some "alice")) },
        [.save] ++ auditEvents adminCtx "reassign_role"⟩ ∧
     findLastRole
        (setLastRoleAssignee (setLastRoleAssignee wTeam2.roles "Technical Lead" none)
          "SDET" (some "alice")) "Technical Lead" =
        some { wRoleAlice with assigned_to := none } ∧
     findLastRole
        (setLastRoleAssignee (setLastRoleAssignee wTeam2.roles "Technical Lead" none)
          "SDET" (some "alice")) "SDET" =
        some { name := "SDET", responsibility := "", deliverables := [],
               assigned_to := some "alice" } ∧
     (∀ nm, nm ≠ "Technical Lead" → nm ≠ "SDET" →
       findLastRole
         (setLastRoleAssignee (setLastRoleAssignee wTeam2.roles "Technical Lead" none)
           "SDET" (some "alice")) nm = findLastRole wTeam2.roles nm)) :=
  ⟨rfl, rfl, rfl, rfl, rfl, rfl, rfl, by decide,
   (C6_reassign_atomic adminCtx [wTeam2] 1 "Technical Lead" "SDET" "bob" wTeam2 wRoleAlice
     rfl rfl rfl rfl rfl rfl).1 (by decide),
   (C6_reassign_atomic adminCtx [wTeam2] 1 "Technical Lead" "SDET" "alice" wTeam2 wRoleAlice
     rfl rfl rfl rfl rfl rfl).2
     { name := "SDET", responsibility := "", deliverables := [], assigned_to := none }
     rfl rfl (by decide)⟩

/-! ## C8 -/

theorem parsedRecords_cons_blank (rest : List LedgerLine) :
    parsedRecords (.blank :: rest) = parsedRecords rest := rfl

theorem parsedRecords_cons_malformed (rest : List LedgerLine) :
    parsedRecords (.malformed :: rest) = parsedRecords rest := rfl

theorem parsedRecords_cons_record (e : LogEntry) (rest : List LedgerLine) :
    parsedRecords (.record e :: rest) = e :: parsedRecords rest := rfl

theorem queryScan_take (q : AuditQuery) (limit : Int) (lines : List LedgerLine) :
    ∀ (count : Nat), (count : Int) < limit →
    (∀ e ∈ parsedRecords lines, entryStep q e ≠ .abort) →
    queryScan q limit count lines =
      ((parsedRecords lines).filter (fun e => entryStep q e == .keep)).take
        (limit - count).toNat := by
  induction lines with
  | nil => intro count h1 h2; simp [queryScan, parsedRecords]
  | cons l rest ih =>
    intro count h1 h2
    cases l with
    | blank =>
      rw [parsedRecords_cons_blank] at h2 ⊢
      simpa [queryScan] using ih count h1 h2
    | malformed =>
      rw [parsedRecords_cons_malformed] at h2 ⊢
      simpa [queryScan] using ih count h1 h2
    | record e =>
      rw [parsedRecords_cons_record] at h2 ⊢
      have habort : entryStep q e ≠ .abort := h2 e (List.mem_cons_self e _)
      have h2' : ∀ x ∈ parsedRecords rest, entryStep q x ≠ .abort :=
        fun x hx => h2 x (List.mem_cons_of_mem e hx)
      cases hstep : entryStep q e with
      | abort => exact absurd hstep habort
      | skip =>
        have hne : (entryStep q e == QueryStep.keep) = false := by simp [hstep]
        simpa [queryScan, hstep, List.filter_cons, hne] using ih count h1 h2'
      | keep =>
        have hyes : (entryStep q e == QueryStep.keep) = true := by simp [hstep]
        rw [List.filter_cons_of_pos (l := parsedRecords rest)
          (p := fun x => entryStep q x == QueryStep.keep) (a := e) hyes]
        by_cases hlast : limit ≤ (count : Int) + 1
        · have hone : (limit - count).toNat = 1 := by omega
          simp [queryScan, hstep, hlast, hone]
        · have hlt : ((count + 1 : Nat) : Int) < limit := by push_cast; omega
          have hsucc : (limit - count).toNat = (limit - (count + 1)).toNat + 1 := by omega
          simp only [queryScan, hstep, hlast, if_false]
          rw [ih (count + 1) hlt h2', hsucc, List.take_succ_cons]
          norm_cast

theorem applyStart_keep {q : AuditQuery} {e : LogEntry}
    (h : applyStartFilter q e = .keep) :
    ∀ st, q.start_time = some st → ∃ t, e.timestamp = some t ∧ st ≤ t := by
  intro st hst
  unfold applyStartFilter at h
  rw [hst] at h
  cases hts : e.timestamp with
  | none => simp [hts] at h
  | some t =>
    simp only [hts] at h
    by_cases hlt : t < st
    · rw [if_pos hlt] at h
      cases h
    · exact ⟨t, rfl, not_lt.mp hlt⟩

theorem applyEnd_keep {q : AuditQuery} {e : LogEntry}
    (h : applyEndFilter q e = .keep) :
    ∀ et, q.end_time = some et → ∃ t, e.timestamp = some t ∧ t ≤ et := by
  intro et het
  unfold applyEndFilter at h
  rw [het] at h
  cases hts : e.timestamp with
  | none => simp [hts] at h
  | some t =>
    simp only [hts] at h
    by_cases hlt : et < t
    · rw [if_pos hlt] at h
      cases h
    · exact ⟨t, rfl, not_lt.mp hlt⟩

theorem entryStep_keep {q : AuditQuery} {e : LogEntry} (h : entryStep q e = .keep) :
    (∀ st, q.start_time = some st → ∃ t, e.timestamp = some t ∧ st ≤ t) ∧
    (∀ et, q.end_time = some et → ∃ t, e.timestamp = some t ∧ t ≤ et) ∧
    (strFilterActive q.user = true → e.user = q.user) ∧
    (strFilterActive q.action = true → e.action = q.action) ∧
    (∀ tid, q.team_id = some tid → e.team_id = some tid) := by
  unfold entryStep at h
  cases h1 : applyStartFilter q e with
  | abort => simp [h1] at h
  | skip => simp [h1] at h
  | keep =>
  simp only [h1] at h
  cases h2 : applyEndFilter q e with
  | abort => simp [h2] at h
  | skip => simp [h2] at h
  | keep =>
  simp only [h2] at h
  by_cases hu : (strFilterActive q.user && !(e.user == q.user)) = true
  · rw [if_pos hu] at h
    cases h
  · rw [if_neg hu] at h
    by_cases hac : (strFilterActive q.action && !(e.action == q.action)) = true
    · rw [if_pos hac] at h
      cases h
    · rw [if_neg hac] at h
      refine ⟨applyStart_keep h1, applyEnd_keep h2, ?_, ?_, ?_⟩
      · intro hactive
        have hb : (e.user == q.user) = true := by
          simp [hactive] at hu
          simpa using hu
        exact eq_of_beq hb
      · intro hactive
        have hb : (e.action == q.action) = true := by
          simp [hactive] at hac
          simpa using hac
        exact eq_of_beq hb
      · intro tid htid
        simp only [htid] at h
        by_cases ht : (e.team_id == some tid) = true
        · exact eq_of_beq ht
        · have hcond : (!(e.team_id == some tid)) = true := by simp [ht]
          rw [if_pos hcond] at h
          cases h

/-- C8 counterexample: the query performs no sort.  On a ledger whose two
parseable records carry descending timestamps, the result comes back in
ledger order [t=2, t=1], which is not sorted by timestamp ascending. -/
theorem C8_counterexample :
    query_audit_log {} 100 [.record qRec2, .record qRec1] = [qRec2, qRec1] ∧
    sortedByTimestamp [qRec2, qRec1] = false :=
  ⟨rfl, rfl⟩

/-- C8 as amended: for every filter combination the query is one forward
scan that skips blank and JSON-unparsable lines and applies all supplied
filters as a conjunction; provided the limit is at least 1 and, when a time
filter forces timestamp parsing, every parsed record carries a parsable
timestamp (otherwise the scan stops early, keeping what it has), the result
is exactly the first limit matching records IN LEDGER ORDER — so at most
limit records, each passing every filter, and sorted by timestamp ascending
exactly when the parsed ledger was appended in ascending timestamp order
(with limit 0 or negative, the scan still returns the first match). -/
theorem C8_audit_query (q : AuditQuery) (limit : Int) (lines : List LedgerLine)
    (hlim : 1 ≤ limit)
    (habort : ∀ e ∈ parsedRecords lines, entryStep q e ≠ .abort) :
    query_audit_log q limit lines = (matchingRecords q lines).take limit.toNat ∧
    (query_audit_log q limit lines).length ≤ limit.toNat ∧
    (∀ e ∈ query_audit_log q limit lines,
      (∀ st, q.start_time = some st → ∃ t, e.timestamp = some t ∧ st ≤ t) ∧
      (∀ et, q.end_time = some et → ∃ t, e.timestamp = some t ∧ t ≤ et) ∧
      (strFilterActive q.user = true → e.user = q.user) ∧
      (strFilterActive q.action = true → e.action = q.action) ∧
      (∀ tid, q.team_id = some tid → e.team_id = some tid)) ∧
    (∀ (r : LogEntry → LogEntry → Prop), (parsedRecords lines).Pairwise r →
      (query_audit_log q limit lines).Pairwise r) := by
  have hmain : query_audit_log q limit lines = (matchingRecords q lines).take limit.toNat := by
    have h0 : ((0 : Nat) : Int) < limit := by omega
    have := queryScan_take q limit lines 0 h0 habort
    unfold query_audit_log matchingRecords
    rw [this]
    norm_num
  have hsub : List.Sublist (query_audit_log q limit lines) (parsedRecords lines) := by
    rw [hmain]
    exact ((matchingRecords q lines).take_sublist limit.toNat).trans
      (List.filter_sublist (parsedRecords lines))
  refine ⟨hmain, ?_, ?_, ?_⟩
  · rw [hmain]
    exact ((matchingRecords q lines).length_take_le limit.toNat)
  · intro e he
    rw [hmain] at he
    have hmem := (matchingRecords q lines).take_sublist limit.toNat |>.mem he
    have hkeep : entryStep q e = .keep := by
      have := List.of_mem_filter hmem
      simpa using this
    exact entryStep_keep hkeep
  · intro r hr
    exact hr.sublist hsub

/-- Witness for C8: a user filter over a ledger with a malformed line and a
non-matching record. -/
theorem C8_audit_query_witness :
    (1 : Int) ≤ 100 ∧
    (∀ e ∈ parsedRecords [.record qRec1, .malformed, .record qRecBob, .record qRec2],
      entryStep { user := some "alice" } e ≠ .abort) ∧
    query_audit_log { user := some "alice" } 100
        [.record qRec1, .malformed, .record qRecBob, .record qRec2] =
      (matchingRecords { user := some "alice" }
        [.record qRec1, .malformed, .record qRecBob, .record qRec2]).take (100 : Int).toNat :=
  ⟨by decide, by decide,
   (C8_audit_query { user := some "alice" } 100
     [.record qRec1, .malformed, .record qRecBob, .record qRec2] (by decide) (by decide)).1⟩

/-! ## C4 -/

theorem insertSorted_le {x : Int} {l : List Int} (h : ∀ y ∈ l, x ≤ y) :
    insertSorted x l = x :: l := by
  cases l with
  | nil => rfl
  | cons y ys =>
    have hxy : x ≤ y := h y (List.mem_cons_self y ys)
    simp [insertSorted, hxy]

theorem sortBackups_sorted_id {l : List Int} (h : l.Pairwise (· ≤ ·)) :
    sortBackups l = l := by
  induction l with
  | nil => rfl
  | cons x xs ih =>
    rw [List.pairwise_cons] at h
    show insertSorted x (sortBackups xs) = x :: xs
    rw [ih h.2, insertSorted_le h.1]

theorem whileDropOldest_eq_drop (m : Nat) (l : List Int) :
    whileDropOldest m l = l.drop (l.length - m) := by
  induction l with
  | nil => simp [whileDropOldest]
  | cons x xs ih =>
    unfold whileDropOldest
    by_cases h : m < xs.length + 1
    · rw [if_pos h, ih, List.length_cons]
      have harith : xs.length + 1 - m = (xs.length - m) + 1 := by omega
      rw [harith, List.drop_succ_cons]
    · rw [if_neg h, List.length_cons]
      have harith : xs.length + 1 - m = 0 := by omega
      rw [harith, List.drop_zero]

theorem lastK_append_absorb (K : Nat) (A B : List Int) :
    lastK K (lastK K A ++ B) = lastK K (A ++ B) := by
  unfold lastK
  by_cases hA : A.length ≤ K
  · have h0 : A.length - K = 0 := by omega
    rw [h0, List.drop_zero]
  · have hd : A.length - K ≤ A.length := by omega
    rw [← List.drop_append_of_le_length hd]
    rw [List.drop_drop]
    congr 1
    simp only [List.length_drop, List.length_append]
    omega

theorem runSaves_lastK (K : Nat) :
    ∀ (ts bs : List Int),
    bs.Pairwise (· ≤ ·) →
    (∀ b ∈ bs, ∀ t ∈ ts, b < t) →
    ts.Pairwise (· < ·) →
    bs.length ≤ K →
    runSaves K bs ts = lastK K (bs ++ ts) := by
  intro ts
  induction ts with
  | nil =>
    intro bs h1 h2 h3 h4
    have h0 : bs.length - K = 0 := by omega
    simp [runSaves, lastK, h0]
  | cons t ts ih =>
    intro bs h1 h2 h3 h4
    have hble : ∀ b ∈ bs, b ≤ t := fun b hb =>
      le_of_lt (h2 b hb t (List.mem_cons_self t ts))
    have hsorted : (bs ++ [t]).Pairwise (· ≤ ·) := by
      rw [List.pairwise_append]
      exact ⟨h1, List.pairwise_singleton _ t,
        fun b hb y hy => by rw [List.mem_singleton] at hy; subst hy; exact hble b hb⟩
    have hcb : (create_backup K true true bs t).2 = lastK K (bs ++ [t]) := by
      show (cleanup_old_backups K (bs ++ [t])) = lastK K (bs ++ [t])
      unfold cleanup_old_backups
      rw [sortBackups_sorted_id hsorted, whileDropOldest_eq_drop]
      rfl
    have hstep : runSaves K bs (t :: ts) = runSaves K (lastK K (bs ++ [t])) ts := by
      show runSaves K (create_backup K true true bs t).2 ts = _
      rw [hcb]
    rw [hstep]
    have hts' : ts.Pairwise (· < ·) := (List.pairwise_cons.mp h3).2
    have htlt : ∀ u ∈ ts, t < u := (List.pairwise_cons.mp h3).1
    have hmem : ∀ b ∈ lastK K (bs ++ [t]), ∀ u ∈ ts, b < u := by
      intro b hb u hu
      have hb2 : b ∈ bs ++ [t] := List.drop_subset _ _ hb
      rcases List.mem_append.mp hb2 with hb3 | hb3
      · exact h2 b hb3 u (List.mem_cons_of_mem t hu)
      · rw [List.mem_singleton] at hb3
        subst hb3
        exact htlt u hu
    have hsorted' : (lastK K (bs ++ [t])).Pairwise (· ≤ ·) :=
      hsorted.sublist (List.drop_sublist _ _)
    have hlen : (lastK K (bs ++ [t])).length ≤ K := by
      unfold lastK
      rw [List.length_drop]
      omega
    rw [ih (lastK K (bs ++ [t])) hsorted' hmem hts' hlen, lastK_append_absorb]
    rw [List.append_assoc]
    rfl

/-- C4: after M saves of an existing document with retention limit K (the
BackupManager constructor turns 0 into the default, so K is at least 1), at
strictly increasing mtimes, exactly min(M, K) backups remain and they are
the K most recent snapshots — the length-K suffix of the save times — the
oldest having been evicted first by the sorted-then-pop-front cleanup. -/
theorem C4_backup_retention (K : Nat) (ts : List Int)
    (hK : 1 ≤ K) (hts : ts.Pairwise (· < ·)) :
    runSaves K [] ts = ts.drop (ts.length - K) ∧
    (runSaves K [] ts).length = min ts.length K := by
  have hmain : runSaves K [] ts = lastK K ([] ++ ts) :=
    runSaves_lastK K ts [] (List.Pairwise.nil) (by intro b hb; cases hb) hts
      (by simp)
  rw [List.nil_append] at hmain
  constructor
  · exact hmain
  · rw [hmain]
    unfold lastK
    rw [List.length_drop]
    omega

/-- Witness for C4: three saves with retention 2 keep the two most recent. -/
theorem C4_backup_retention_witness :
    (1 ≤ 2) ∧ ([10, 20, 30] : List Int).Pairwise (· < ·) ∧
    runSaves 2 [] [10, 20, 30] = ([10, 20, 30] : List Int).drop (3 - 2) ∧
    (runSaves 2 [] [10, 20, 30]).length = min 3 2 :=
  ⟨by decide, by decide, (C4_backup_retention 2 [10, 20, 30] (by decide) (by decide)).1,
   (C4_backup_retention 2 [10, 20, 30] (by decide) (by decide)).2⟩

/-! ## C5 -/

theorem find?_filter_of_pos {α : Type} {p q : α → Bool} {l : List α} {x : α}
    (h : l.find? q = some x) (hp : p x = true) :
    (l.filter p).find? q = some x := by
  induction l with
  | nil => simp at h
  | cons a as ih =>
    by_cases hq : q a = true
    · rw [List.find?_cons_of_pos _ hq] at h
      obtain rfl := Option.some.inj h
      rw [List.filter_cons_of_pos hp, List.find?_cons_of_pos _ hq]
    · rw [List.find?_cons_of_neg _ (by simpa using hq)] at h
      by_cases hpa : p a = true
      · rw [List.filter_cons_of_pos hpa, List.find?_cons_of_neg _ (by simpa using hq)]
        exact ih h
      · rw [List.filter_cons_of_neg (by simpa using hpa)]
        exact ih h

theorem find?_filter_nodup_key {bs : List (String × Bucket)} {u : String}
    {x : String × Bucket} (p : String × Bucket → Bool)
    (hnodup : (bs.map Prod.fst).Nodup)
    (hfind : bs.find? (fun ub => ub.1 == u) = some x) :
    (bs.filter p).find? (fun ub => ub.1 == u) = if p x then some x else none := by
  induction bs with
  | nil => simp at hfind
  | cons a as ih =>
    rw [List.map_cons, List.nodup_cons] at hnodup
    by_cases ha : a.1 = u
    · rw [List.find?_cons_of_pos _ (by simpa using ha)] at hfind
      obtain rfl := Option.some.inj hfind
      have hnone : as.find? (fun ub => ub.1 == u) = none := by
        rw [List.find?_eq_none]
        intro y hy
        simp only [beq_iff_eq]
        intro hyu
        apply hnodup.1
        have hmem : y.1 ∈ List.map Prod.fst as := List.mem_map_of_mem Prod.fst hy
        rwa [hyu, ← ha] at hmem
      have hnone2 : (as.filter p).find? (fun ub => ub.1 == u) = none := by
        rw [List.find?_eq_none]
        intro y hy
        have := List.find?_eq_none.mp hnone y (List.mem_of_mem_filter hy)
        exact this
      by_cases hpa : p a = true
      · rw [List.filter_cons_of_pos hpa, List.find?_cons_of_pos _ (by simpa using ha),
          if_pos hpa]
      · rw [List.filter_cons_of_neg (by simpa using hpa), hnone2, if_neg hpa]
    · rw [List.find?_cons_of_neg _ (by simpa using ha)] at hfind
      by_cases hpa : p a = true
      · rw [List.filter_cons_of_pos hpa, List.find?_cons_of_neg _ (by simpa using ha)]
        exact ih hnodup.2 hfind
      · rw [List.filter_cons_of_neg (by simpa using hpa)]
        exact ih hnodup.2 hfind

theorem find?_append_right {α : Type} (p : α → Bool) :
    ∀ {l1 l2 : List α}, l1.find? p = none → (l1 ++ l2).find? p = l2.find? p := by
  intro l1
  induction l1 with
  | nil => intro l2 _; rfl
  | cons a as ih =>
    intro l2 h
    have hpa : ¬ (p a = true) := fun hx =>
      List.find?_eq_none.mp h a (List.mem_cons_self a as) hx
    have h' : as.find? p = none := by
      rw [List.find?_eq_none]
      intro y hy
      exact List.find?_eq_none.mp h y (List.mem_cons_of_mem a hy)
    rw [List.cons_append, List.find?_cons_of_neg _ hpa]
    exact ih h'

theorem find?_mapUpdate_self (u : String) (b : Bucket) :
    ∀ {bs : List (String × Bucket)}, bs.any (fun ub => ub.1 == u) = true →
    (bs.map (fun ub => if ub.1 == u then (u, b) else ub)).find? (fun ub => ub.1 == u) =
      some (u, b) := by
  intro bs
  induction bs with
  | nil => intro h; simp at h
  | cons a as ih =>
    intro h
    by_cases ha : a.1 = u
    · have hhd : (if a.1 == u then (u, b) else a) = (u, b) := by simp [ha]
      rw [List.map_cons, hhd, List.find?_cons_of_pos _ (by simp)]
    · have hhd : (if a.1 == u then (u, b) else a) = a := by simp [ha]
      rw [List.map_cons, hhd, List.find?_cons_of_neg _ (by simpa using ha)]
      apply ih
      rcases List.any_eq_true.mp h with ⟨x, hx, hxu⟩
      rcases List.mem_cons.mp hx with rfl | hx2
      · exact absurd (by simpa using hxu) ha
      · exact List.any_eq_true.mpr ⟨x, hx2, hxu⟩

theorem getBucket_setBucket_self (bs : List (String × Bucket)) (u : String) (b : Bucket) :
    getBucket (setBucket bs u b) u = some b := by
  unfold getBucket setBucket
  by_cases h : bs.any (fun ub => ub.1 == u) = true
  · rw [if_pos h, find?_mapUpdate_self u b h]
    rfl
  · rw [if_neg h]
    have hnofind : bs.find? (fun ub => ub.1 == u) = none := by
      rw [List.find?_eq_none]
      intro y hy hyu
      exact h (List.any_eq_true.mpr ⟨y, hy, hyu⟩)
    rw [find?_append_right _ hnofind, List.find?_cons_of_pos _ (by simp)]
    rfl

theorem setBucket_keys_nodup {bs : List (String × Bucket)} {u : String} {b : Bucket}
    (h : (bs.map Prod.fst).Nodup) : ((setBucket bs u b).map Prod.fst).Nodup := by
  unfold setBucket
  by_cases hany : bs.any (fun ub => ub.1 == u) = true
  · rw [if_pos hany]
    have hkeys : (bs.map (fun ub => if ub.1 == u then (u, b) else ub)).map Prod.fst =
        bs.map Prod.fst := by
      rw [List.map_map]
      apply List.map_congr_left
      intro ub _
      by_cases h2 : ub.1 = u
      · simp [h2]
      · simp [h2]
    rw [hkeys]
    exact h
  · rw [if_neg hany, List.map_append]
    rw [List.nodup_append]
    refine ⟨h, List.nodup_singleton u, ?_⟩
    intro a ha hau
    rw [List.map_singleton, List.mem_singleton] at hau
    subst hau
    rcases List.mem_map.mp ha with ⟨y, hy, hyu⟩
    exact hany (List.any_eq_true.mpr ⟨y, hy, by simpa using hyu⟩)

theorem cleanup_enabled (st : RateLimiterState) (now : Int) :
    (cleanup_old_buckets st now).enabled = st.enabled := by
  unfold cleanup_old_buckets
  split <;> rfl

theorem cleanup_window (st : RateLimiterState) (now : Int) :
    (cleanup_old_buckets st now).window_seconds = st.window_seconds := by
  unfold cleanup_old_buckets
  split <;> rfl

theorem cleanup_requests (st : RateLimiterState) (now : Int) :
    (cleanup_old_buckets st now).requests_per_window = st.requests_per_window := by
  unfold cleanup_old_buckets
  split <;> rfl

theorem cleanup_keys_nodup {st : RateLimiterState} (now : Int)
    (h : (st.buckets.map Prod.fst).Nodup) :
    ((cleanup_old_buckets st now).buckets.map Prod.fst).Nodup := by
  unfold cleanup_old_buckets
  split
  · exact h
  · exact h.sublist ((List.filter_sublist _).map Prod.fst)

theorem getBucket_cleanup_kept {st : RateLimiterState} {now : Int} {user : String}
    {b : Bucket} (h : getBucket st.buckets user = some b)
    (hcond : ¬ (st.window_seconds * 2 < now - b.last_reset)) :
    getBucket (cleanup_old_buckets st now).buckets user = some b := by
  unfold cleanup_old_buckets
  split
  · exact h
  · unfold getBucket at h ⊢
    cases hx : st.buckets.find? (fun ub => ub.1 == user) with
    | none => rw [hx] at h; cases h
    | some x =>
      rw [hx] at h
      have hxb : x.2 = b := Option.some.inj h
      have hpx : (fun ub => !(decide (st.window_seconds * 2 < now - ub.2.last_reset))) x
          = true := by
        simp only [Bool.not_eq_true']
        rw [hxb]
        simpa using hcond
      rw [find?_filter_of_pos hx hpx]
      simp [hxb]

theorem getBucket_cleanup_cases {st : RateLimiterState} (now : Int) {user : String}
    {b : Bucket} (hnodup : (st.buckets.map Prod.fst).Nodup)
    (h : getBucket st.buckets user = some b) :
    getBucket (cleanup_old_buckets st now).buckets user = some b ∨
    getBucket (cleanup_old_buckets st now).buckets user = none := by
  unfold cleanup_old_buckets
  split
  · exact Or.inl h
  · unfold getBucket at h ⊢
    cases hx : st.buckets.find? (fun ub => ub.1 == user) with
    | none => rw [hx] at h; cases h
    | some x =>
      rw [hx] at h
      have hxb : x.2 = b := Option.some.inj h
      rw [find?_filter_nodup_key _ hnodup hx]
      by_cases hp : (fun ub => !(decide (st.window_seconds * 2 < now - ub.2.last_reset))) x
          = true
      · rw [if_pos hp]
        exact Or.inl (by simp [hxb])
      · rw [if_neg hp]
        exact Or.inr rfl

theorem getBucket_cleanup_none {st : RateLimiterState} {now : Int} {user : String}
    (h : getBucket st.buckets user = none) :
    getBucket (cleanup_old_buckets st now).buckets user = none := by
  unfold cleanup_old_buckets
  split
  · exact h
  · unfold getBucket at h ⊢
    cases hx : st.buckets.find? (fun ub => ub.1 == user) with
    | some x => rw [hx] at h; cases h
    | none =>
      have : (st.buckets.filter
          (fun ub => !(decide (st.window_seconds * 2 < now - ub.2.last_reset)))).find?
          (fun ub => ub.1 == user) = none := by
        rw [List.find?_eq_none]
        intro y hy
        exact List.find?_eq_none.mp hx y (List.mem_of_mem_filter hy)
      rw [this]
      rfl

theorem check_step_window {st : RateLimiterState} {user : String} {t tok t0 : Int}
    (hen : st.enabled = true) (hw : 0 < st.window_seconds)
    (hb : getBucket st.buckets user = some ⟨tok, t0⟩)
    (htw : t - t0 < st.window_seconds) :
    (check_rate_limit st t user).1.1 = decide (0 < tok) ∧
    getBucket (check_rate_limit st t user).2.buckets user =
      some ⟨if 0 < tok then tok - 1 else tok, t0⟩ ∧
    (check_rate_limit st t user).2.enabled = true ∧
    (check_rate_limit st t user).2.window_seconds = st.window_seconds ∧
    (check_rate_limit st t user).2.requests_per_window = st.requests_per_window ∧
    ((st.buckets.map Prod.fst).Nodup →
      ((check_rate_limit st t user).2.buckets.map Prod.fst).Nodup) := by
  have hkept : getBucket (cleanup_old_buckets st t).buckets user = some ⟨tok, t0⟩ :=
    getBucket_cleanup_kept hb (by
      show ¬ (st.window_seconds * 2 < t - t0)
      omega)
  have hrefill : ¬ ((cleanup_old_buckets st t).window_seconds ≤
      t - (⟨tok, t0⟩ : Bucket).last_reset) := by
    rw [cleanup_window]
    show ¬ (st.window_seconds ≤ t - t0)
    omega
  simp only [check_rate_limit, hen, Bool.not_true, Bool.false_eq_true, if_false,
    hkept, Option.getD_some, hrefill]
  by_cases htok : 0 < tok
  · have hne : ¬ ((⟨tok, t0⟩ : Bucket).tokens ≤ 0) := by
      show ¬ (tok ≤ 0)
      omega
    rw [if_neg hne]
    refine ⟨by simp [htok], ?_, ?_, ?_, ?_, ?_⟩
    · rw [if_pos htok]
      exact getBucket_setBucket_self _ _ _
    · rw [cleanup_enabled]
      exact hen
    · exact cleanup_window st t
    · exact cleanup_requests st t
    · intro hnodup
      exact setBucket_keys_nodup (cleanup_keys_nodup t hnodup)
  · have hle : (⟨tok, t0⟩ : Bucket).tokens ≤ 0 := by
      show tok ≤ 0
      omega
    rw [if_pos hle]
    refine ⟨by simp [htok], ?_, ?_, ?_, ?_, ?_⟩
    · rw [if_neg htok]
      exact getBucket_setBucket_self _ _ _
    · rw [cleanup_enabled]
      exact hen
    · exact cleanup_window st t
    · exact cleanup_requests st t
    · intro hnodup
      exact setBucket_keys_nodup (cleanup_keys_nodup t hnodup)

theorem check_first {st : RateLimiterState} {user : String} (t0 : Int)
    (hen : st.enabled = true) (hw : 0 < st.window_seconds)
    (hN : 1 ≤ st.requests_per_window)
    (hb : getBucket st.buckets user = none) :
    (check_rate_limit st t0 user).1.1 = true ∧
    getBucket (check_rate_limit st t0 user).2.buckets user =
      some ⟨st.requests_per_window - 1, t0⟩ ∧
    (check_rate_limit st t0 user).2.enabled = true ∧
    (check_rate_limit st t0 user).2.window_seconds = st.window_seconds ∧
    (check_rate_limit st t0 user).2.requests_per_window = st.requests_per_window ∧
    ((st.buckets.map Prod.fst).Nodup →
      ((check_rate_limit st t0 user).2.buckets.map Prod.fst).Nodup) := by
  have hnone : getBucket (cleanup_old_buckets st t0).buckets user = none :=
    getBucket_cleanup_none hb
  have hrefill : ¬ ((cleanup_old_buckets st t0).window_seconds ≤
      t0 - (⟨(cleanup_old_buckets st t0).requests_per_window, t0⟩ : Bucket).last_reset) := by
    rw [cleanup_window]
    show ¬ (st.window_seconds ≤ t0 - t0)
    omega
  have hne : ¬ ((⟨(cleanup_old_buckets st t0).requests_per_window, t0⟩ : Bucket).tokens
      ≤ 0) := by
    show ¬ ((cleanup_old_buckets st t0).requests_per_window ≤ 0)
    rw [cleanup_requests]
    omega
  simp only [check_rate_limit, hen, Bool.not_true, Bool.false_eq_true, if_false,
    hnone, Option.getD_none]
  rw [if_neg hrefill, if_neg hne]
  refine ⟨rfl, ?_, ?_, ?_, ?_, ?_⟩
  · rw [getBucket_setBucket_self, cleanup_requests]
  · rw [cleanup_enabled]
    exact hen
  · exact cleanup_window st t0
  · exact cleanup_requests st t0
  · intro hnodup
    exact setBucket_keys_nodup (cleanup_keys_nodup t0 hnodup)

theorem check_refill {st : RateLimiterState} {user : String} {tok t0 t1 : Int}
    (hen : st.enabled = true) (hw : 0 < st.window_seconds)
    (hN : 1 ≤ st.requests_per_window)
    (hnodup : (st.buckets.map Prod.fst).Nodup)
    (hb : getBucket st.buckets user = some ⟨tok, t0⟩)
    (ht1 : st.window_seconds ≤ t1 - t0) :
    (check_rate_limit st t1 user).1.1 = true ∧
    getBucket (check_rate_limit st t1 user).2.buckets user =
      some ⟨st.requests_per_window - 1, t1⟩ := by
  rcases getBucket_cleanup_cases t1 hnodup hb with hc | hc
  · have hrefill : (cleanup_old_buckets st t1).window_seconds ≤
        t1 - (⟨tok, t0⟩ : Bucket).last_reset := by
      rw [cleanup_window]
      exact ht1
    have hne : ¬ ((⟨(cleanup_old_buckets st t1).requests_per_window, t1⟩ : Bucket).tokens
        ≤ 0) := by
      show ¬ ((cleanup_old_buckets st t1).requests_per_window ≤ 0)
      rw [cleanup_requests]
      omega
    simp only [check_rate_limit, hen, Bool.not_true, Bool.false_eq_true, if_false,
      hc, Option.getD_some]
    rw [if_pos hrefill, if_neg hne]
    refine ⟨rfl, ?_⟩
    rw [getBucket_setBucket_self, cleanup_requests]
  · have hrefill : ¬ ((cleanup_old_buckets st t1).window_seconds ≤
        t1 - (⟨(cleanup_old_buckets st t1).requests_per_window, t1⟩ : Bucket).last_reset) := by
      rw [cleanup_window]
      show ¬ (st.window_seconds ≤ t1 - t1)
      omega
    have hne : ¬ ((⟨(cleanup_old_buckets st t1).requests_per_window, t1⟩ : Bucket).tokens
        ≤ 0) := by
      show ¬ ((cleanup_old_buckets st t1).requests_per_window ≤ 0)
      rw [cleanup_requests]
      omega
    simp only [check_rate_limit, hen, Bool.not_true, Bool.false_eq_true, if_false,
      hc, Option.getD_none]
    rw [if_neg hrefill, if_neg hne]
    refine ⟨rfl, ?_⟩
    rw [getBucket_setBucket_self, cleanup_requests]

theorem runChecks_window {user : String} :
    ∀ (ts : List Int) (st : RateLimiterState) (tok t0 : Int),
    st.enabled = true →
    0 < st.window_seconds →
    getBucket st.buckets user = some ⟨tok, t0⟩ →
    0 ≤ tok →
    (∀ t ∈ ts, t - t0 < st.window_seconds) →
    (runChecks user st ts).1 =
      (List.range ts.length).map (fun (i : Nat) => decide ((i : Int) < tok)) ∧
    getBucket (runChecks user st ts).2.buckets user =
      some ⟨tok - min tok (ts.length : Int), t0⟩ ∧
    (runChecks user st ts).2.enabled = true ∧
    (runChecks user st ts).2.window_seconds = st.window_seconds ∧
    (runChecks user st ts).2.requests_per_window = st.requests_per_window ∧
    ((st.buckets.map Prod.fst).Nodup →
      ((runChecks user st ts).2.buckets.map Prod.fst).Nodup) := by
  intro ts
  induction ts with
  | nil =>
    intro st tok t0 hen hw hb htok hts
    refine ⟨rfl, ?_, hen, rfl, rfl, fun h => h⟩
    have h0 : tok - min tok ((([] : List Int).length : Int)) = tok := by
      simp only [List.length_nil, Nat.cast_zero]
      omega
    rw [h0]
    exact hb
  | cons t ts ih =>
    intro st tok t0 hen hw hb htok hts
    obtain ⟨s1, s2, s3, s4, s5, s6⟩ :=
      check_step_window hen hw hb (hts t (List.mem_cons_self t ts))
    have hw' : 0 < (check_rate_limit st t user).2.window_seconds := by
      rw [s4]
      exact hw
    have htok' : 0 ≤ (if 0 < tok then tok - 1 else tok) := by
      split <;> omega
    have hts' : ∀ u ∈ ts, u - t0 < (check_rate_limit st t user).2.window_seconds := by
      intro u hu
      rw [s4]
      exact hts u (List.mem_cons_of_mem t hu)
    obtain ⟨r1, r2, r3, r4, r5, r6⟩ :=
      ih (check_rate_limit st t user).2 (if 0 < tok then tok - 1 else tok) t0 s3 hw' s2
        htok' hts'
    have hfst : (runChecks user st (t :: ts)).1 =
        (check_rate_limit st t user).1.1 ::
          (runChecks user (check_rate_limit st t user).2 ts).1 := rfl
    have hsnd : (runChecks user st (t :: ts)).2 =
        (runChecks user (check_rate_limit st t user).2 ts).2 := rfl
    refine ⟨?_, ?_, ?_, ?_, ?_, ?_⟩
    · rw [hfst, s1, r1, List.length_cons, List.range_succ_eq_map, List.map_cons,
        List.map_map]
      congr 1
      apply List.map_congr_left
      intro a ha
      by_cases h : 0 < tok
      · rw [if_pos h]
        simp only [Function.comp_apply, decide_eq_decide]
        push_cast
        omega
      · rw [if_neg h]
        simp only [Function.comp_apply, decide_eq_decide]
        push_cast
        omega
    · rw [hsnd, r2]
      have harith : (if 0 < tok then tok - 1 else tok) -
          min (if 0 < tok then tok - 1 else tok) (ts.length : Int) =
          tok - min tok (((t :: ts).length : Int)) := by
        rw [List.length_cons]
        push_cast
        by_cases h : 0 < tok <;> simp [h] <;> omega
      rw [harith]
    · rw [hsnd]
      exact r3
    · rw [hsnd, r4, s4]
    · rw [hsnd, r5, s5]
    · intro hnodup
      rw [hsnd]
      exact r6 (s6 hnodup)

/-- C5: fixed-window token-bucket semantics per user.  For a user with no
bucket, a first check at time t0 is allowed and creates a full bucket minus
the consumed token; any further checks inside the window [t0, t0 + w) are
allowed exactly while tokens remain — the i-th of them is allowed iff
i < requestsPerWindow - 1, so exactly requestsPerWindow checks in total are
allowed and every later one is denied — each allowed check consuming exactly
one token and never moving last_reset; and a check at a time t1 with
windowSeconds elapsed since the bucket's last reset is allowed again with
the bucket refilled in full (minus the newly consumed token) and reset at
t1. -/
theorem C5_rate_limiter (st : RateLimiterState) (user : String) (t0 t1 : Int)
    (ts : List Int)
    (hen : st.enabled = true)
    (hw : 0 < st.window_seconds)
    (hN : 1 ≤ st.requests_per_window)
    (hnodup : (st.buckets.map Prod.fst).Nodup)
    (hfresh : getBucket st.buckets user = none)
    (hts : ∀ t ∈ ts, t - t0 < st.window_seconds)
    (ht1 : st.window_seconds ≤ t1 - t0) :
    (check_rate_limit st t0 user).1.1 = true ∧
    (runChecks user (check_rate_limit st t0 user).2 ts).1 =
      (List.range ts.length).map
        (fun (i : Nat) => decide ((i : Int) < st.requests_per_window - 1)) ∧
    getBucket (runChecks user (check_rate_limit st t0 user).2 ts).2.buckets user =
      some ⟨st.requests_per_window - 1 -
        min (st.requests_per_window - 1) (ts.length : Int), t0⟩ ∧
    (check_rate_limit (runChecks user (check_rate_limit st t0 user).2 ts).2 t1 user).1.1 =
      true ∧
    getBucket
      (check_rate_limit (runChecks user (check_rate_limit st t0 user).2 ts).2 t1
        user).2.buckets user = some ⟨st.requests_per_window - 1, t1⟩ := by
  obtain ⟨f1, f2, f3, f4, f5, f6⟩ := check_first t0 hen hw hN hfresh
  have hw2 : 0 < (check_rate_limit st t0 user).2.window_seconds := by
    rw [f4]
    exact hw
  have hts2 : ∀ t ∈ ts, t - t0 < (check_rate_limit st t0 user).2.window_seconds := by
    intro t ht
    rw [f4]
    exact hts t ht
  obtain ⟨r1, r2, r3, r4, r5, r6⟩ :=
    runChecks_window ts (check_rate_limit st t0 user).2 (st.requests_per_window - 1) t0
      f3 hw2 f2 (by omega) hts2
  have hN3 : 1 ≤ (runChecks user (check_rate_limit st t0 user).2 ts).2.requests_per_window := by
    rw [r5, f5]
    exact hN
  have hw3 : 0 < (runChecks user (check_rate_limit st t0 user).2 ts).2.window_seconds := by
    rw [r4, f4]
    exact hw
  have ht13 : (runChecks user (check_rate_limit st t0 user).2 ts).2.window_seconds ≤
      t1 - t0 := by
    rw [r4, f4]
    exact ht1
  obtain ⟨c1, c2⟩ :=
    check_refill r3 hw3 hN3 (r6 (f6 hnodup)) r2 ht13
  refine ⟨f1, by rw [r1], ?_, c1, ?_⟩
  · exact r2
  · rw [c2, r5, f5]

/-- Witness for C5: default limiter configuration (100 requests per 60s), a
first check at time 0, one more check at time 10, and a check at time 60
after the window elapsed. -/
theorem C5_rate_limiter_witness :
    ({} : RateLimiterState).enabled = true ∧
    (0 : Int) < ({} : RateLimiterState).window_seconds ∧
    (1 : Int) ≤ ({} : RateLimiterState).requests_per_window ∧
    (({} : RateLimiterState).buckets.map Prod.fst).Nodup ∧
    getBucket ({} : RateLimiterState).buckets "alice" = none ∧
    (∀ t ∈ ([10] : List Int), t - 0 < ({} : RateLimiterState).window_seconds) ∧
    ({} : RateLimiterState).window_seconds ≤ 60 - 0 ∧
    ((check_rate_limit {} 0 "alice").1.1 = true ∧
     (runChecks "alice" (check_rate_limit {} 0 "alice").2 [10]).1 =
       (List.range ([10] : List Int).length).map
         (fun (i : Nat) => decide ((i : Int) < ({} : RateLimiterState).requests_per_window - 1)) ∧
     getBucket (runChecks "alice" (check_rate_limit {} 0 "alice").2 [10]).2.buckets "alice" =
       some ⟨({} : RateLimiterState).requests_per_window - 1 -
         min (({} : RateLimiterState).requests_per_window - 1)
           ((([10] : List Int).length : Int)), 0⟩ ∧
     (check_rate_limit (runChecks "alice" (check_rate_limit {} 0 "alice").2 [10]).2 60
       "alice").1.1 = true ∧
     getBucket
       (check_rate_limit (runChecks "alice" (check_rate_limit {} 0 "alice").2 [10]).2 60
         "alice").2.buckets "alice" =
       some ⟨({} : RateLimiterState).requests_per_window - 1, 60⟩) :=
  ⟨rfl, by decide, by decide, List.nodup_nil, rfl, by decide, by decide,
   C5_rate_limiter {} "alice" 0 60 [10] rfl (by decide) (by decide) List.nodup_nil rfl
     (by decide) (by decide)⟩

end TM
